import Mathlib

/-!
# Dashboard (IncludeOS): JSON snapshot serializers and aggregator

A shallow embedding of `src/dashboard.cpp`.

* The serializers (`serialize_memmap`, `serialize_statman`,
  `serialize_stack_sampler`, `serialize_status`) only ever *call* the writer
  and ignore what the calls return, so each one is embedded as the sequence
  of writer calls it issues (`List Call`), in source order.
* The writer (`rapidjson::Writer` over a `rapidjson::StringBuffer`) is
  embedded as a state machine over a token buffer.
* The aggregator entry points (`serve_all`, `serve_memmap`, ...) are state
  passing functions over `Dashboard`.
-/

namespace IncludeOS

/-! ## Floating point values -/

/-- Value of an IEEE-754 floating point datum: a finite rational, negative
zero, an infinity or a NaN.  `finite 0` is positive zero. -/
inductive Fp where
  | finite (q : ℚ)
  | negZero
  | inf (neg : Bool)
  | nan
  deriving DecidableEq

namespace Fp

/-- Sign bit of a value (false for NaN, whose sign is never consulted). -/
def sign : Fp → Bool
  | finite q => decide (q < 0)
  | negZero => true
  | inf neg => neg
  | nan => false

/-- Whether the value is one of the two zeros. -/
def isZero : Fp → Bool
  | finite q => decide (q = 0)
  | negZero => true
  | _ => false

/-- Zero carrying the given sign. -/
def zero (neg : Bool) : Fp := if neg then negZero else finite 0

/-- Floor of the base two logarithm of a natural number (zero at zero),
by repeated halving; the first argument bounds the number of halvings. -/
def log2Aux : Nat → Nat → Nat
  | 0, _ => 0
  | fuel + 1, n => if n < 2 then 0 else log2Aux fuel (n / 2) + 1

/-- Floor of the base two logarithm of a natural number. -/
def log2 (n : Nat) : Nat := log2Aux n n

/-- Floor of the base two logarithm of a positive rational `n / d`. -/
def ilog2 (n d : Nat) : Int :=
  let a := log2 n
  let b := log2 d
  if a ≥ b then
    if n ≥ d * 2 ^ (a - b) then ((a - b : Nat) : Int) else ((a - b : Nat) : Int) - 1
  else
    if n * 2 ^ (b - a) ≥ d then -((b - a : Nat) : Int) else -((b - a : Nat) : Int) - 1

/-- Nearest integer to `q`, ties to the even one. -/
def roundHalfEven (q : ℚ) : Int :=
  let f := Rat.floor q
  let r := q - f
  if r < 1 / 2 then f
  else if 1 / 2 < r then f + 1
  else if f % 2 = 0 then f else f + 1

/-- Power of two with an integer exponent, as a rational. -/
def pow2 (e : Int) : ℚ :=
  if 0 ≤ e then (2 ^ e.toNat : ℚ) else 1 / (2 ^ (-e).toNat : ℚ)

/-- Round a rational to the nearest value of the binary format with
`p` significand bits and minimal normal exponent `emin`, maximal exponent
`emax` (round to nearest, ties to even; overflow gives an infinity,
underflow to zero keeps the sign). -/
def roundTo (p : Nat) (emin emax : Int) (q : ℚ) : Fp :=
  if q = 0 then finite 0
  else
    let e := max (ilog2 q.num.natAbs q.den) emin
    let ulp := pow2 (e - (p - 1 : Nat))
    let m := roundHalfEven (q / ulp)
    let r := (m : ℚ) * ulp
    if pow2 (emax + 1) ≤ |r| then inf (decide (q < 0))
    else if r = 0 then zero (decide (q < 0))
    else finite r

/-- Rounding to `float` (binary32). -/
def round32 (q : ℚ) : Fp := roundTo 24 (-126) 127 q

/-- Conversion of an integer to `float`. -/
def ofInt (i : Int) : Fp := round32 (i : ℚ)

/-- Rational value of a finite datum (zero for the zeros). -/
def toRat : Fp → ℚ
  | finite q => q
  | _ => 0

/-- Division in `float` arithmetic (IEEE-754 `/` on binary32). -/
def div32 (x y : Fp) : Fp :=
  match x, y with
  | nan, _ => nan
  | _, nan => nan
  | inf _, inf _ => nan
  | inf s, y => inf (xor s y.sign)
  | x, inf s => zero (xor x.sign s)
  | x, y =>
    if y.isZero then
      if x.isZero then nan else inf (xor x.sign y.sign)
    else if x.isZero then zero (xor x.sign y.sign)
    else round32 (x.toRat / y.toRat)

/-- Multiplication in `float` arithmetic (IEEE-754 `*` on binary32). -/
def mul32 (x y : Fp) : Fp :=
  match x, y with
  | nan, _ => nan
  | _, nan => nan
  | inf s, y => if y.isZero then nan else inf (xor s y.sign)
  | x, inf s => if x.isZero then nan else inf (xor x.sign s)
  | x, y =>
    if x.isZero || y.isZero then zero (xor x.sign y.sign)
    else round32 (x.toRat * y.toRat)

/-- Whether the value is a (finite) number, i.e. neither NaN nor infinite. -/
def isFinite : Fp → Bool
  | finite _ => true
  | negZero => true
  | _ => false

end Fp

/-! ## The structured writer -/

/-- Modelled from the spec: the output of the structured writer
(`rapidjson::Writer`, not under src/) is kept as a sequence of JSON tokens:
the six punctuation marks and one token per scalar written.  The text in the
buffer is the concatenation of the renderings of the tokens. -/
inductive Tok where
  | lbrace
  | rbrace
  | lbrack
  | rbrack
  | comma
  | colon
  | str (s : String)
  | int (i : Int)
  | dbl (d : Fp)
  deriving DecidableEq

/-- One call on the writer, with its argument already converted to the
parameter type of the primitive (`Uint` takes `unsigned`, `Uint64` takes
`uint64_t`, `Int` takes `int`, `Int64` takes `int64_t`, `Double` takes
`double`). -/
inductive Call where
  | StartObject
  | EndObject
  | StartArray
  | EndArray
  | Key (name : String)
  | String (s : String)
  | Int (i : ℤ)
  | Uint (u : ℕ)
  | Int64 (i : ℤ)
  | Uint64 (u : ℕ)
  | Double (d : Fp)
  deriving DecidableEq

/-- Nesting level of the writer: whether it is an array, and how many
values (in an object: keys and values) were written in it so far. -/
structure Level where
  inArray : Bool
  valueCount : Nat
  deriving DecidableEq

/-- Modelled from the spec: the structured writer, "a thin stateful cursor
bound to exactly one buffer at a time" (`rapidjson::Writer`, not under
src/).  `os_` is the content of the buffer it is bound to, `level_stack_`
the open objects and arrays (innermost first), `hasRoot_` whether a root
value was started. -/
structure Writer where
  os_ : List Tok
  level_stack_ : List Level
  hasRoot_ : Bool
  deriving DecidableEq

namespace Writer

/-- Writer bound to an empty buffer, nothing open. -/
def fresh : Writer := { os_ := [], level_stack_ := [], hasRoot_ := false }

/-- Append one token to the bound buffer. -/
def put (w : Writer) (t : Tok) : Writer := { w with os_ := w.os_ ++ [t] }

/-- Separator written before a value: inside an array a comma before every
value but the first, inside an object a comma before a key and a colon
before its value; at the root nothing, and the root is marked started. -/
def Prefix (w : Writer) : Writer :=
  match w.level_stack_ with
  | level :: rest =>
    let w1 :=
      if level.valueCount > 0 then
        if level.inArray then w.put Tok.comma
        else w.put (if level.valueCount % 2 = 0 then Tok.comma else Tok.colon)
      else w
    { w1 with level_stack_ := { level with valueCount := level.valueCount + 1 } :: rest }
  | [] => { w with hasRoot_ := true }

/-- Writer primitive `StartObject`. -/
def StartObject (w : Writer) : Writer :=
  let w1 := w.Prefix
  { w1 with level_stack_ := { inArray := false, valueCount := 0 } :: w1.level_stack_ }.put Tok.lbrace

/-- Writer primitive `EndObject`. -/
def EndObject (w : Writer) : Writer :=
  { w with level_stack_ := w.level_stack_.tail }.put Tok.rbrace

/-- Writer primitive `StartArray`. -/
def StartArray (w : Writer) : Writer :=
  let w1 := w.Prefix
  { w1 with level_stack_ := { inArray := true, valueCount := 0 } :: w1.level_stack_ }.put Tok.lbrack

/-- Writer primitive `EndArray`. -/
def EndArray (w : Writer) : Writer :=
  { w with level_stack_ := w.level_stack_.tail }.put Tok.rbrack

end Writer

/-- Writer primitive `Key`: the separator, then the name as a string. -/
def Writer.Key (w : Writer) (name : String) : Writer := w.Prefix.put (Tok.str name)

/-- Writer primitive `String`: the separator, then the string. -/
def Writer.String (w : Writer) (s : String) : Writer := w.Prefix.put (Tok.str s)

namespace Writer

/-- Effect of one call on the writer. -/
def step (w : Writer) : Call → Writer
  | Call.StartObject => w.StartObject
  | Call.EndObject => w.EndObject
  | Call.StartArray => w.StartArray
  | Call.EndArray => w.EndArray
  | Call.Key name => w.Key name
  | Call.String s => w.String s
  | Call.Int i => w.Prefix.put (Tok.int i)
  | Call.Uint u => w.Prefix.put (Tok.int u)
  | Call.Int64 i => w.Prefix.put (Tok.int i)
  | Call.Uint64 u => w.Prefix.put (Tok.int u)
  | Call.Double d => w.Prefix.put (Tok.dbl d)

/-- Effect of a sequence of calls, in order. -/
def run (w : Writer) (cs : List Call) : Writer := cs.foldl step w

/-- Writer primitive `Reset`: rebind to the (cleared) buffer, dropping all
nesting state. -/
def Reset (_w : Writer) (os : List Tok) : Writer :=
  { os_ := os, level_stack_ := [], hasRoot_ := false }

/-- Writer observer `IsComplete`: a root value was written and nothing is
open. -/
def IsComplete (w : Writer) : Bool := w.hasRoot_ && w.level_stack_.isEmpty

end Writer

/-! ## The data sources -/

/-- Conversion of an address-width unsigned value to `unsigned`, the
parameter type of `Writer::Uint`: reduction modulo `2 ^ 32`. -/
def toUnsigned (n : Nat) : Nat := n % 2 ^ 32

/-- One entry of the memory map (`entry` in `serialize_memmap`): the values
returned by its accessors.  `addr_start`, `addr_end` and `in_use` are
address-width unsigned integers. -/
structure MemoryRegion where
  name : String
  addr_start : Nat
  addr_end : Nat
  in_use : Nat
  description : String
  deriving DecidableEq

/-- Value of `stat.type()`: one of the three enumerators the source names,
or any other value of the enumeration type. -/
inductive stat_type where
  | FLOAT
  | UINT32
  | UINT64
  | unknown (tag : Nat)
  deriving DecidableEq

/-- One counter of the statistics registry: the values returned by its
accessors (`get_uint64` is a `uint64_t`, `get_uint32` a `uint32_t`,
`get_float` a `float`, `index` an `int`). -/
structure Stat where
  name : String
  type : stat_type
  get_uint64 : Nat
  get_uint32 : Nat
  get_float : Fp
  index : Int
  deriving DecidableEq

/-- The statistics registry: its slots from `begin()` on, and the position
of `last_used()` among them. -/
structure Statman where
  stats : List Stat
  last_used : Nat
  deriving DecidableEq

/-- The slots visited by `for (it = begin(); it != last_used(); ++it)`. -/
def Statman.live (s : Statman) : List Stat := s.stats.take s.last_used

/-- One result of the stack sampler: hit count (`uint32_t`), sampled
address (a pointer) and resolved symbol name. -/
structure Sample where
  samp : Nat
  addr : Nat
  name : String
  deriving DecidableEq

/-- State of the external data sources at the time of a request:
`OS::memory_map()` as the sequence of its (key, region) pairs in iteration
order, `Statman::get()`, `StackSampler::results` and
`StackSampler::samples_total()` (as received in `int total`),
`OS::version()`, `Service::name()`, `OS::uptime()`, `OS::heap_usage()`,
`OS::cpu_freq().count()` and `RTC::now()` (as received in `long hest`). -/
structure Env where
  memory_map : List (Nat × MemoryRegion)
  statman : Statman
  results : Nat → List Sample
  samples_total : Int
  version : String
  service_name : String
  uptime : Int
  heap_usage : Nat
  cpu_freq : Fp
  rtc_now : Int

/-! ## Calendar time -/

/-- Broken-down time, the fields of `struct tm` that `%FT%TZ` reads. -/
structure Tm where
  tm_sec : Int
  tm_min : Int
  tm_hour : Int
  tm_mday : Int
  tm_mon : Int
  tm_year : Int
  deriving DecidableEq

/-- Modelled from the spec: `gmtime` of the C library (not under src/), the
UTC civil date and time of a count of seconds since 1970-01-01T00:00:00Z in
the proleptic Gregorian calendar. -/
def gmtime (t : Int) : Tm :=
  let days := t / 86400
  let rem := t % 86400
  let z := days + 719468
  let era := z / 146097
  let doe := z % 146097
  let yoe := (doe - doe / 1460 + doe / 36524 - doe / 146096) / 365
  let doy := doe - (365 * yoe + yoe / 4 - yoe / 100)
  let mp := (5 * doy + 2) / 153
  let d := doy - (153 * mp + 2) / 5 + 1
  let m := if mp < 10 then mp + 3 else mp - 9
  let y := yoe + era * 400 + (if m ≤ 2 then 1 else 0)
  { tm_sec := rem % 60, tm_min := rem / 60 % 60, tm_hour := rem / 3600,
    tm_mday := d, tm_mon := m - 1, tm_year := y - 1900 }

/-- The decimal digit character of `d % 10`. -/
def digitChar (d : Nat) : Char := Char.ofNat (48 + d % 10)

/-- The last `w` decimal digits of `n`, most significant first, zero
padded. -/
def padDigits : Nat → Nat → List Char
  | 0, _ => []
  | w + 1, n => padDigits w (n / 10) ++ [digitChar n]

/-- Number of decimal digits of `n` beyond the first; the first argument
bounds the count. -/
def extraDigits : Nat → Nat → Nat
  | 0, _ => 0
  | fuel + 1, n => if n < 10 then 0 else extraDigits fuel (n / 10) + 1

/-- Decimal rendering of an integer in a field of at least `w` digits,
zero padded, with a leading minus sign for a negative number. -/
def fmtInt (w : Nat) (i : Int) : List Char :=
  let n := i.natAbs
  (if i < 0 then ['-'] else []) ++ padDigits (max w (extraDigits n n + 1)) n

/-- Modelled from the spec: `strftime` of the C library (not under src/)
with the format `%FT%TZ`, that is `%Y-%m-%dT%H:%M:%SZ`: the year in at
least four digits, the other fields in two. -/
def strftime_FTZ (tt : Tm) : String :=
  String.mk (fmtInt 4 (tt.tm_year + 1900) ++ ['-'] ++ fmtInt 2 (tt.tm_mon + 1) ++ ['-'] ++
    fmtInt 2 tt.tm_mday ++ ['T'] ++ fmtInt 2 tt.tm_hour ++ [':'] ++ fmtInt 2 tt.tm_min ++
    [':'] ++ fmtInt 2 tt.tm_sec ++ ['Z'])

/-! ## The dashboard -/

/-- Transport side of a request: the bodies handed to `send_json`, oldest
first. -/
abbrev Response := List (List Tok)

/-- The members of `Dashboard` that the serving code touches: the writer
`writer_` together with the content of `buffer_` it is bound to
(`writer_.os_`), and `stack_samples`. -/
structure Dashboard where
  writer_ : Writer
  stack_samples : Nat
  deriving DecidableEq

namespace Dashboard

/-- Content of `buffer_`, which is the stream `writer_` is bound to. -/
def buffer_ (d : Dashboard) : List Tok := d.writer_.os_

/-- Constructor: `buffer_(0, 4096), writer_(buffer_), stack_samples(12)`. -/
def new : Dashboard := { writer_ := Writer.fresh, stack_samples := 12 }

/-- Calls issued for one memory map entry (the body of the loop in
`serialize_memmap`). -/
def memmap_entry (i : Nat × MemoryRegion) : List Call :=
  let entry := i.2
  [ Call.StartObject,
    Call.Key "name",
    Call.String entry.name,
    Call.Key "addr_start",
    Call.Uint (toUnsigned entry.addr_start),
    Call.Key "addr_end",
    Call.Uint (toUnsigned entry.addr_end),
    Call.Key "in_use",
    Call.Uint (toUnsigned entry.in_use),
    Call.Key "description",
    Call.String entry.description,
    Call.EndObject ]

/-- Calls issued by `serialize_memmap`. -/
def serialize_memmap (env : Env) : List Call :=
  [Call.StartArray] ++ env.memory_map.flatMap memmap_entry ++ [Call.EndArray]

/-- The `switch (stat.type())` of `serialize_statman`: the call it issues
for the value, and the content of `type` afterwards (initially `""`). -/
def statman_switch (stat : Stat) : List Call × String :=
  match stat.type with
  | stat_type.UINT64 => ([Call.Uint64 stat.get_uint64], "UINT64")
  | stat_type.UINT32 => ([Call.Uint stat.get_uint32], "UINT32")
  | stat_type.FLOAT => ([Call.Double stat.get_float], "FLOAT")
  | stat_type.unknown _ => ([], "")

/-- Calls issued for one counter (the body of the loop in
`serialize_statman`). -/
def statman_entry (stat : Stat) : List Call :=
  [ Call.StartObject,
    Call.Key "name",
    Call.String stat.name,
    Call.Key "value" ] ++
  (statman_switch stat).1 ++
  [ Call.Key "type",
    Call.String (statman_switch stat).2,
    Call.Key "index",
    Call.Int stat.index,
    Call.EndObject ]

/-- Calls issued by `serialize_statman`. -/
def serialize_statman (env : Env) : List Call :=
  let statman := env.statman
  [Call.StartArray] ++ statman.live.flatMap statman_entry ++ [Call.EndArray]

/-- The local `perc` of `serialize_stack_sampler`:
`sa.samp / (float)total * 100.0f`. -/
def perc (sa : Sample) (total : Int) : Fp :=
  Fp.mul32 (Fp.div32 (Fp.ofInt sa.samp) (Fp.ofInt total)) (Fp.finite 100)

/-- Calls issued for one sample (the body of the loop in
`serialize_stack_sampler`). -/
def stack_sampler_entry (total : Int) (sa : Sample) : List Call :=
  [ Call.StartObject,
    Call.Key "address",
    Call.Uint (toUnsigned sa.addr),
    Call.Key "name",
    Call.String sa.name,
    Call.Key "total",
    Call.Uint sa.samp,
    Call.Key "percent",
    Call.Double (perc sa total),
    Call.EndObject ]

/-- Calls issued by `serialize_stack_sampler`. -/
def serialize_stack_sampler (d : Dashboard) (env : Env) : List Call :=
  let samples := env.results d.stack_samples
  let total := env.samples_total
  [Call.StartArray] ++ samples.flatMap (stack_sampler_entry total) ++ [Call.EndArray]

/-- Calls issued by `serialize_status`. -/
def serialize_status (env : Env) : List Call :=
  let hest := env.rtc_now
  let tt := gmtime hest
  let datebuf := strftime_FTZ tt
  [ Call.StartObject,
    Call.Key "version",
    Call.String env.version,
    Call.Key "service",
    Call.String env.service_name,
    Call.Key "uptime",
    Call.Int64 env.uptime,
    Call.Key "heap_usage",
    Call.Uint64 env.heap_usage,
    Call.Key "cpu_freq",
    Call.Double env.cpu_freq,
    Call.Key "current_time",
    Call.String datebuf,
    Call.EndObject ]

/-- Member function `reset_writer`: `buffer_.Clear(); writer_.Reset(buffer_)`. -/
def reset_writer (d : Dashboard) : Dashboard :=
  { d with writer_ := d.writer_.Reset [] }

/-- Member function `send_buffer`: `res->send_json(buffer_.GetString())`,
then `reset_writer()`. -/
def send_buffer (d : Dashboard) (res : Response) : Dashboard × Response :=
  (d.reset_writer, res ++ [d.buffer_])

/-- Member function `serve_all`. -/
def serve_all (env : Env) (d : Dashboard) (res : Response) : Dashboard × Response :=
  let w := d.writer_.StartObject
  let w := w.Key "memmap"
  let w := w.run (serialize_memmap env)
  let w := w.Key "statman"
  let w := w.run (serialize_statman env)
  let w := w.Key "stack_sampler"
  let w := w.run (d.serialize_stack_sampler env)
  let w := w.Key "status"
  let w := w.run (serialize_status env)
  let w := w.EndObject
  send_buffer { d with writer_ := w } res

/-- Member function `serve_memmap`. -/
def serve_memmap (env : Env) (d : Dashboard) (res : Response) : Dashboard × Response :=
  send_buffer { d with writer_ := d.writer_.run (serialize_memmap env) } res

/-- Member function `serve_statman`. -/
def serve_statman (env : Env) (d : Dashboard) (res : Response) : Dashboard × Response :=
  send_buffer { d with writer_ := d.writer_.run (serialize_statman env) } res

/-- Member function `serve_stack_sampler`. -/
def serve_stack_sampler (env : Env) (d : Dashboard) (res : Response) : Dashboard × Response :=
  send_buffer { d with writer_ := d.writer_.run (d.serialize_stack_sampler env) } res

end Dashboard

/-- The four request kinds, one per route. -/
inductive Request where
  | all
  | memmap
  | statman
  | stack_sampler
  deriving DecidableEq

/-- Dispatch of a request to its entry point (`setup_routes`). -/
def Dashboard.serve (env : Env) (d : Dashboard) (res : Response) : Request → Dashboard × Response
  | Request.all => d.serve_all env res
  | Request.memmap => d.serve_memmap env res
  | Request.statman => d.serve_statman env res
  | Request.stack_sampler => d.serve_stack_sampler env res

/-- Body sent by an entry point called with an empty response log. -/
def Dashboard.body (env : Env) (d : Dashboard) (r : Request) : List Tok :=
  ((d.serve env [] r).2.getLast?).getD []

/-- Dashboard state after serving a sequence of requests, each against its
own state of the data sources. -/
def Dashboard.serveMany (d : Dashboard) : List (Env × Request) → Dashboard
  | [] => d
  | (env, r) :: rest => Dashboard.serveMany (d.serve env [] r).1 rest

/-! ## JSON values and well nested call sequences -/

/-- A JSON value of the kinds the dashboard produces: string, integer
number, floating point number, array, object (members in order). -/
inductive JVal where
  | str (s : String)
  | int (i : Int)
  | dbl (d : Fp)
  | arr (elems : List JVal)
  | obj (members : List (String × JVal))

mutual

/-- Compact JSON text of a value, as tokens. -/
def JVal.toks : JVal → List Tok
  | JVal.str s => [Tok.str s]
  | JVal.int i => [Tok.int i]
  | JVal.dbl d => [Tok.dbl d]
  | JVal.arr elems => [Tok.lbrack] ++ JVal.elemsToks true elems ++ [Tok.rbrack]
  | JVal.obj members => [Tok.lbrace] ++ JVal.membersToks true members ++ [Tok.rbrace]

/-- Elements of an array, a comma before each but the very first. -/
def JVal.elemsToks : Bool → List JVal → List Tok
  | _, [] => []
  | first, v :: rest =>
    (if first then [] else [Tok.comma]) ++ v.toks ++ JVal.elemsToks false rest

/-- Members of an object, a comma before each but the very first, a colon
between name and value. -/
def JVal.membersToks : Bool → List (String × JVal) → List Tok
  | _, [] => []
  | first, (k, v) :: rest =>
    (if first then [] else [Tok.comma]) ++ [Tok.str k, Tok.colon] ++ v.toks ++
      JVal.membersToks false rest

end

/-- Texts joined by commas: a comma before each but the very first. -/
def joinElems : Bool → List (List Tok) → List Tok
  | _, [] => []
  | first, t :: rest => (if first then [] else [Tok.comma]) ++ t ++ joinElems false rest

/-- Text of an array whose elements are given as text. -/
def arrToks (elems : List (List Tok)) : List Tok :=
  [Tok.lbrack] ++ joinElems true elems ++ [Tok.rbrack]

/-- Text of an object whose member values are given as text. -/
def objToks (members : List (String × List Tok)) : List Tok :=
  [Tok.lbrace] ++ joinElems true (members.map fun m => [Tok.str m.1, Tok.colon] ++ m.2) ++
    [Tok.rbrace]

/-- Value of the member named `k` of an object (the first such member). -/
def JVal.field (k : String) : JVal → Option JVal
  | JVal.obj members => (members.find? fun m => m.1 == k).map Prod.snd
  | _ => none

/-- Whether the value is an integer number. -/
def JVal.isInt : JVal → Bool
  | JVal.int _ => true
  | _ => false

/-- Whether the value is a floating point number. -/
def JVal.isDbl : JVal → Bool
  | JVal.dbl _ => true
  | _ => false

/-- Whether the value is an object. -/
def JVal.isObj : JVal → Bool
  | JVal.obj _ => true
  | _ => false

/-- What an open position of a call sequence expects: `root` the single
root value, `done` nothing more, `arr` a value or `EndArray`, `objKey` a
`Key` or `EndObject`, `objVal` the value of the key just written. -/
inductive Ctx where
  | root
  | done
  | arr
  | objKey
  | objVal
  deriving DecidableEq

/-- The position after a value was written in it, if it accepts one. -/
def Ctx.afterValue : Ctx → Option Ctx
  | Ctx.root => some Ctx.done
  | Ctx.arr => some Ctx.arr
  | Ctx.objVal => some Ctx.objKey
  | _ => none

/-- One step of the nesting check: the open positions (innermost first)
after the call, or `none` if the call is not allowed there. -/
def nestStep : List Ctx → Call → Option (List Ctx)
  | c :: rest, Call.StartObject => c.afterValue.map fun c1 => Ctx.objKey :: c1 :: rest
  | c :: rest, Call.StartArray => c.afterValue.map fun c1 => Ctx.arr :: c1 :: rest
  | Ctx.objKey :: rest, Call.EndObject => some rest
  | Ctx.arr :: rest, Call.EndArray => some rest
  | Ctx.objKey :: rest, Call.Key _ => some (Ctx.objVal :: rest)
  | c :: rest, Call.String _ => c.afterValue.map fun c1 => c1 :: rest
  | c :: rest, Call.Int _ => c.afterValue.map fun c1 => c1 :: rest
  | c :: rest, Call.Uint _ => c.afterValue.map fun c1 => c1 :: rest
  | c :: rest, Call.Int64 _ => c.afterValue.map fun c1 => c1 :: rest
  | c :: rest, Call.Uint64 _ => c.afterValue.map fun c1 => c1 :: rest
  | c :: rest, Call.Double _ => c.afterValue.map fun c1 => c1 :: rest
  | _, _ => none

/-- The nesting check over a sequence of calls. -/
def nestRun : List Ctx → List Call → Option (List Ctx)
  | st, [] => some st
  | st, c :: cs => (nestStep st c).bind fun st1 => nestRun st1 cs

/-- A call sequence is well nested when every `StartArray`/`StartObject` is
closed by its matching `EndArray`/`EndObject`, every `Key` sits in an object
and is followed by exactly one value, and the whole is exactly one value. -/
def wellNested (cs : List Call) : Bool := nestRun [Ctx.root] cs == some [Ctx.done]

/-- The JSON object a memory region is expected to give: the five keys in
order with the region's values, the numeric ones as given by `num`. -/
def regionObj (num : Nat → Int) (r : MemoryRegion) : JVal :=
  JVal.obj [("name", JVal.str r.name), ("addr_start", JVal.int (num r.addr_start)),
    ("addr_end", JVal.int (num r.addr_end)), ("in_use", JVal.int (num r.in_use)),
    ("description", JVal.str r.description)]

/-- The value read from a counter through the accessor of its own type. -/
def Stat.valueJ (s : Stat) : JVal :=
  match s.type with
  | stat_type.UINT64 => JVal.int s.get_uint64
  | stat_type.UINT32 => JVal.int s.get_uint32
  | _ => JVal.dbl s.get_float

/-- The label of a counter type. -/
def stat_type.label : stat_type → String
  | stat_type.UINT64 => "UINT64"
  | stat_type.UINT32 => "UINT32"
  | stat_type.FLOAT => "FLOAT"
  | stat_type.unknown _ => ""

/-- Whether the type is one of the three enumerators. -/
def stat_type.known : stat_type → Bool
  | stat_type.unknown _ => false
  | _ => true

/-- The JSON object a counter of a known type is expected to give. -/
def statObj (s : Stat) : JVal :=
  JVal.obj [("name", JVal.str s.name), ("value", s.valueJ),
    ("type", JVal.str s.type.label), ("index", JVal.int s.index)]

/-- The JSON object a stack sample gives. -/
def sampleObj (total : Int) (sa : Sample) : JVal :=
  JVal.obj [("address", JVal.int (toUnsigned sa.addr)), ("name", JVal.str sa.name),
    ("total", JVal.int sa.samp), ("percent", JVal.dbl (Dashboard.perc sa total))]

/-- The JSON object of the status, with the given six key names. -/
def statusObj (keys : List String) (env : Env) : JVal :=
  JVal.obj (keys.zip [JVal.str env.version, JVal.str env.service_name, JVal.int env.uptime,
    JVal.int env.heap_usage, JVal.dbl env.cpu_freq,
    JVal.str (strftime_FTZ (gmtime env.rtc_now))])

/-- Text a serializer appends to an empty buffer through a fresh writer. -/
def fragment (cs : List Call) : List Tok := (Writer.fresh.run cs).os_

/-- The call sequence `cs` acts on every writer like the writing of one
value with text `t`: the separator that the position asks for, then `t`,
and the nesting state as after one value. -/
def Emits (cs : List Call) (t : List Tok) : Prop :=
  ∀ w : Writer, w.run cs =
    { os_ := w.Prefix.os_ ++ t, level_stack_ := w.Prefix.level_stack_,
      hasRoot_ := w.Prefix.hasRoot_ }

/-- Text appended for one counter, whatever its type: the object of a
counter of a known type; for any other type the tokens of the calls that
remain when the switch issues none. -/
def statText (s : Stat) : List Tok :=
  if s.type.known then (statObj s).toks
  else [Tok.lbrace, Tok.str "name", Tok.colon, Tok.str s.name, Tok.comma, Tok.str "value",
    Tok.colon, Tok.str "type", Tok.comma, Tok.str "", Tok.colon, Tok.str "index", Tok.comma,
    Tok.int s.index, Tok.rbrace]

/-- Separator written in a level with `c` values so far. -/
def sepToks (inArray : Bool) (c : Nat) : List Tok :=
  if c > 0 then
    if inArray then [Tok.comma] else [if c % 2 = 0 then Tok.comma else Tok.colon]
  else []

/-- Whether some element with an integer member `index` has it equal to
`i`: the number of such elements of a list. -/
def countIndex (i : Int) (elems : List JVal) : Nat :=
  elems.countP fun o =>
    match o.field "index" with
    | some (JVal.int j) => j == i
    | _ => false

/-- A state of the data sources with nothing registered. -/
def Env.quiet : Env :=
  { memory_map := []
    statman := { stats := [], last_used := 0 }
    results := fun _ => []
    samples_total := 0
    version := ""
    service_name := ""
    uptime := 0
    heap_usage := 0
    cpu_freq := Fp.finite 0
    rtc_now := 0 }

/-- Twenty sampled addresses, the k-th with `20 - k` hits. -/
def Env.twentySamples : List Sample :=
  (List.range 20).map fun k => { samp := 20 - k, addr := 4096 + 16 * k, name := "fn" }

/-- A state of the data sources with two regions, two live counters before
an unused slot, and twenty sampled addresses. -/
def Env.busy : Env :=
  { memory_map :=
      [(4096, { name := "heap", addr_start := 4096, addr_end := 8192, in_use := 256,
                description := "main heap" }),
       (8192, { name := "stack", addr_start := 8192, addr_end := 12288, in_use := 64,
                description := "stack" })]
    statman :=
      { stats :=
          [{ name := "requests", type := stat_type.UINT64, get_uint64 := 42, get_uint32 := 0,
             get_float := Fp.finite 0, index := 0 },
           { name := "load", type := stat_type.FLOAT, get_uint64 := 0, get_uint32 := 0,
             get_float := Fp.finite (1 / 2), index := 1 },
           { name := "", type := stat_type.unknown 170, get_uint64 := 0, get_uint32 := 0,
             get_float := Fp.nan, index := 0 }]
        last_used := 2 }
    results := fun n => Env.twentySamples.take n
    samples_total := 210
    version := "v0.9.3"
    service_name := "dashboard"
    uptime := 17
    heap_usage := 65536
    cpu_freq := Fp.finite 2400
    rtc_now := 1700000000 }

/-- A state of the data sources whose only region lies at 4 GiB. -/
def Env.highRegion : Env :=
  { Env.quiet with
    memory_map :=
      [(4294967296, { name := "high", addr_start := 4294967296, addr_end := 4294971392,
                      in_use := 16, description := "above 4 GiB" })] }

/-- A state of the data sources in which the sampler returns samples while
its total count reads zero. -/
def Env.zeroTotal : Env :=
  { Env.quiet with
    results := fun _ =>
      [{ samp := 3, addr := 4096, name := "main" }, { samp := 0, addr := 8192, name := "idle" }]
    samples_total := 0 }

/-- A state of the data sources whose only live counter has a type that is
none of the three enumerators. -/
def Env.unknownType : Env :=
  { Env.quiet with
    statman :=
      { stats := [{ name := "x", type := stat_type.unknown 3, get_uint64 := 7, get_uint32 := 7,
                    get_float := Fp.finite 7, index := 0 }]
        last_used := 1 } }

/-- A state of the data sources whose sampler returns one sample taken at
an address above 4 GiB. -/
def Env.highAddress : Env :=
  { Env.quiet with
    results := fun _ => [{ samp := 1, addr := 4294967296 + 4096, name := "far" }]
    samples_total := 1 }

/-- A dashboard whose buffer holds a string and whose writer has nothing
open: not a state the serving code leaves behind. -/
def Dashboard.stale : Dashboard :=
  { writer_ := { os_ := [Tok.str "stale"], level_stack_ := [], hasRoot_ := false }
    stack_samples := 12 }

/-- A dashboard whose writer has an object open, the key `k` written and its
value pending. -/
def Dashboard.midObject : Dashboard :=
  { writer_ := { os_ := [Tok.lbrace, Tok.str "k"],
                 level_stack_ := [{ inArray := false, valueCount := 1 }], hasRoot_ := true }
    stack_samples := 12 }

/-! ## Text of the tokens -/

/-- The double quote character. -/
def quoteChar : Char := Char.ofNat 34

/-- The backslash character. -/
def backslashChar : Char := Char.ofNat 92

/-- Upper case hexadecimal digit of `d % 16`. -/
def hexDigit (d : Nat) : Char :=
  if d % 16 < 10 then Char.ofNat (48 + d % 16) else Char.ofNat (55 + d % 16)

/-- Modelled from the spec: text of one character inside a JSON string as
the structured writer (`rapidjson::Writer`, not under src/) writes it: the
quote and the backslash behind a backslash, control characters as their
short escape or as `u00XX`, every other character as it is. -/
def escapeChar (c : Char) : List Char :=
  let n := c.toNat
  if n = 34 then [backslashChar, quoteChar]
  else if n = 92 then [backslashChar, backslashChar]
  else if n = 8 then [backslashChar, 'b']
  else if n = 9 then [backslashChar, 't']
  else if n = 10 then [backslashChar, 'n']
  else if n = 12 then [backslashChar, 'f']
  else if n = 13 then [backslashChar, 'r']
  else if n < 32 then [backslashChar, 'u', '0', '0', hexDigit (n / 16), hexDigit n]
  else [c]

/-- Text of a JSON string: the escaped characters between double quotes. -/
def renderString (s : String) : List Char :=
  [quoteChar] ++ s.data.flatMap escapeChar ++ [quoteChar]

/-- Modelled from the spec: text of one token as the structured writer
(`rapidjson::Writer`, not under src/) writes it, compact and without white
space: the punctuation mark, the quoted string, the integer in decimal. The
text of a floating point number is left to `dtoa`, the writer's rendering of
a `double`. -/
def Tok.render (dtoa : Fp → List Char) : Tok → List Char
  | Tok.lbrace => [Char.ofNat 123]
  | Tok.rbrace => [Char.ofNat 125]
  | Tok.lbrack => ['[']
  | Tok.rbrack => [']']
  | Tok.comma => [',']
  | Tok.colon => [':']
  | Tok.str s => renderString s
  | Tok.int i => fmtInt 1 i
  | Tok.dbl d => dtoa d

/-- Text of a sequence of tokens: the texts of the tokens, concatenated. -/
def renderToks (dtoa : Fp → List Char) (ts : List Tok) : List Char :=
  ts.flatMap (Tok.render dtoa)

/-- Texts separated by commas. -/
def commaSep : List (List Char) → List Char
  | [] => []
  | [x] => x
  | x :: y :: rest => x ++ [','] ++ commaSep (y :: rest)

/-- Number of bytes of a text in UTF-8. -/
def byteLength (cs : List Char) : Nat := (cs.map Char.utf8Size).sum

/-- The registry of the example of the memory map: the single region
`heap`. -/
def Env.heapOnly : Env :=
  { Env.quiet with
    memory_map :=
      [(4096, { name := "heap", addr_start := 4096, addr_end := 8192, in_use := 256,
                description := "main heap" })] }

/-- The registry of the example of the statistics: the single counter
`requests`. -/
def Env.requestsOnly : Env :=
  { Env.quiet with
    statman :=
      { stats := [{ name := "requests", type := stat_type.UINT64, get_uint64 := 42,
                    get_uint32 := 0, get_float := Fp.finite 0, index := 0 }]
        last_used := 1 } }



/-- The compact JSON object of a region as text: the five members in
order, strings quoted, numbers in decimal, no white space. -/
def regionText (r : MemoryRegion) : List Char :=
  [Char.ofNat 123] ++
  "\"name\":".data ++ renderString r.name ++
  ",\"addr_start\":".data ++ fmtInt 1 ((r.addr_start % 2 ^ 32 : Nat) : Int) ++
  ",\"addr_end\":".data ++ fmtInt 1 ((r.addr_end % 2 ^ 32 : Nat) : Int) ++
  ",\"in_use\":".data ++ fmtInt 1 ((r.in_use % 2 ^ 32 : Nat) : Int) ++
  ",\"description\":".data ++ renderString r.description ++
  [Char.ofNat 125]

/-! ## The bounded output buffer -/

/-- The calls an entry point issues on `writer_` before it sends: for
`serve_all` the object with the four keys around the four serializers, for
the other three one serializer. -/
def Dashboard.entry_calls (d : Dashboard) (env : Env) : Request → List Call
  | Request.all =>
      [Call.StartObject, Call.Key "memmap"] ++ Dashboard.serialize_memmap env ++
      [Call.Key "statman"] ++ Dashboard.serialize_statman env ++
      [Call.Key "stack_sampler"] ++ d.serialize_stack_sampler env ++
      [Call.Key "status"] ++ Dashboard.serialize_status env ++ [Call.EndObject]
  | Request.memmap => Dashboard.serialize_memmap env
  | Request.statman => Dashboard.serialize_statman env
  | Request.stack_sampler => d.serialize_stack_sampler env

/-- Capacity in bytes given to `buffer_` by the constructor
(`buffer_(0, 4096)`). -/
def Dashboard.capacity : Nat := 4096

/-- Modelled from the spec: one call on a writer bound to the bounded
output buffer (`rapidjson::StringBuffer`, not under src/), "fixed maximum
capacity", "exceeding capacity is a fatal condition": the writer after the
call, or `none`, the fatal condition, when the text in the buffer would
exceed `cap` bytes. -/
def Writer.stepBounded (dtoa : Fp → List Char) (cap : Nat) (w : Writer) (c : Call) :
    Option Writer :=
  if byteLength (renderToks dtoa (w.step c).os_) ≤ cap then some (w.step c) else none

/-- Modelled from the spec: a sequence of calls on a writer bound to the
bounded output buffer; the fatal condition ends it. -/
def Writer.runBounded (dtoa : Fp → List Char) (cap : Nat) : Writer → List Call → Option Writer
  | w, [] => some w
  | w, c :: cs => (Writer.stepBounded dtoa cap w c).bind fun w1 => Writer.runBounded dtoa cap w1 cs

/-- Modelled from the spec: a request served with the bounded output
buffer: the state and the response log after the request, or `none` when
the fatal overflow condition ended the process before anything was sent. -/
def Dashboard.serveBounded (dtoa : Fp → List Char) (env : Env) (d : Dashboard) (res : Response)
    (r : Request) : Option (Dashboard × Response) :=
  (Writer.runBounded dtoa Dashboard.capacity d.writer_ (d.entry_calls env r)).map fun w =>
    Dashboard.send_buffer { d with writer_ := w } res

/-- A state of the data sources whose only region has a name of five
thousand characters. -/
def Env.longName : Env :=
  { Env.quiet with
    memory_map :=
      [(0, { name := String.mk (List.replicate 5000 'a'), addr_start := 0, addr_end := 1,
             in_use := 0, description := "" })] }

/-! ## The civil calendar -/

/-- Whether `y` is a leap year of the Gregorian calendar. -/
def isLeap (y : Int) : Bool := (y % 4 = 0 ∧ y % 100 ≠ 0) ∨ y % 400 = 0

/-- Number of days of month `m` (1 to 12) of year `y`. -/
def daysInMonth (y m : Int) : Int :=
  if m = 2 then (if isLeap y then 29 else 28)
  else if m = 4 ∨ m = 6 ∨ m = 9 ∨ m = 11 then 30 else 31

/-- Number of days of year `y` before the first of month `m` (1 to 12). -/
def daysBeforeMonth (y m : Int) : Int :=
  (if m = 1 then 0 else if m = 2 then 31 else if m = 3 then 59 else if m = 4 then 90
   else if m = 5 then 120 else if m = 6 then 151 else if m = 7 then 181 else if m = 8 then 212
   else if m = 9 then 243 else if m = 10 then 273 else if m = 11 then 304 else 334) +
  (if isLeap y ∧ 2 < m then 1 else 0)

/-- Number of days from 1970-01-01 to the first of January of year `y`:
365 for each year, and one more for each leap year in between. -/
def daysBeforeYear (y : Int) : Int :=
  365 * (y - 1970) + ((y - 1) / 4 - (y - 1) / 100 + (y - 1) / 400 - 477)

/-- Seconds from 1970-01-01T00:00:00Z to the given civil date and time of
day (UTC, no leap seconds). -/
def civilSeconds (y m d hh mm ss : Int) : Int :=
  (daysBeforeYear y + daysBeforeMonth y m + (d - 1)) * 86400 + hh * 3600 + mm * 60 + ss

/-- A state of the data sources whose sampler returns a sample with one hit
and a sample with five hits while the total reads three. -/
def Env.overcount : Env :=
  { Env.quiet with
    results := fun _ =>
      [{ samp := 1, addr := 4096, name := "main" }, { samp := 5, addr := 8192, name := "idle" }]
    samples_total := 3 }

/-! ## The writer: basic facts -/

section WriterLemmas

@[simp] theorem Writer.run_nil (w : Writer) : w.run [] = w := rfl

@[simp] theorem Writer.run_cons (w : Writer) (c : Call) (cs : List Call) :
    w.run (c :: cs) = (w.step c).run cs := rfl

theorem Writer.run_append (w : Writer) (a b : List Call) :
    w.run (a ++ b) = (w.run a).run b := by
  simp [Writer.run, List.foldl_append]

theorem Writer.Prefix_cons (o : List Tok) (a : Bool) (c : Nat) (S : List Level) (h : Bool) :
    Writer.Prefix { os_ := o, level_stack_ := { inArray := a, valueCount := c } :: S,
                    hasRoot_ := h } =
      { os_ := o ++ sepToks a c,
        level_stack_ := { inArray := a, valueCount := c + 1 } :: S, hasRoot_ := h } := by
  unfold Writer.Prefix sepToks Writer.put
  by_cases hc : c > 0 <;> cases a <;> simp [hc]

theorem Writer.Prefix_fresh :
    Writer.fresh.Prefix = { os_ := [], level_stack_ := [], hasRoot_ := true } := rfl

/-- A sequence that emits `t` appends exactly `t` to an empty buffer. -/
theorem Emits.fragment_eq {cs : List Call} {t : List Tok} (h : Emits cs t) :
    fragment cs = t := by
  simp [fragment, h Writer.fresh, Writer.Prefix_fresh]

/-- A sequence that emits a value leaves a fresh writer complete. -/
theorem Emits.run_fresh {cs : List Call} {t : List Tok} (h : Emits cs t) :
    Writer.fresh.run cs = { os_ := t, level_stack_ := [], hasRoot_ := true } := by
  simp [h Writer.fresh, Writer.Prefix_fresh]

end WriterLemmas

/-! ## What each serializer emits -/

section SerializerLemmas

theorem elemsToks_eq_joinElems (b : Bool) (vs : List JVal) :
    JVal.elemsToks b vs = joinElems b (vs.map JVal.toks) := by
  induction vs generalizing b with
  | nil => simp [JVal.elemsToks, joinElems]
  | cons v rest ih => simp [JVal.elemsToks, joinElems, ih]

theorem arr_toks_eq_arrToks (vs : List JVal) :
    (JVal.arr vs).toks = arrToks (vs.map JVal.toks) := by
  simp [JVal.toks, arrToks, elemsToks_eq_joinElems]

theorem emits_memmap_entry (i : Nat × MemoryRegion) :
    Emits (Dashboard.memmap_entry i) (regionObj (fun n => (toUnsigned n : Nat)) i.2).toks := by
  intro w
  simp only [Dashboard.memmap_entry, Writer.run_cons, Writer.run_nil, Writer.step,
    Writer.StartObject]
  generalize w.Prefix = P
  obtain ⟨o, S, h⟩ := P
  simp [Writer.Key, Writer.String, Writer.put, Writer.Prefix_cons, sepToks, Writer.EndObject,
    JVal.toks, JVal.membersToks, regionObj]

theorem emits_statman_entry (s : Stat) : Emits (Dashboard.statman_entry s) (statText s) := by
  intro w
  obtain ⟨name, ty, u64, u32, f, idx⟩ := s
  cases ty <;>
  · simp only [Dashboard.statman_entry, Dashboard.statman_switch, List.cons_append,
      List.nil_append, Writer.run_cons, Writer.run_nil, Writer.step, Writer.StartObject]
    generalize w.Prefix = P
    obtain ⟨o, S, h⟩ := P
    simp [Writer.Key, Writer.String, Writer.put, Writer.Prefix_cons, sepToks, Writer.EndObject,
      JVal.toks, JVal.membersToks, statObj, statText, stat_type.known, Stat.valueJ,
      stat_type.label]

theorem emits_stack_sampler_entry (total : Int) (sa : Sample) :
    Emits (Dashboard.stack_sampler_entry total sa) (sampleObj total sa).toks := by
  intro w
  simp only [Dashboard.stack_sampler_entry, Writer.run_cons, Writer.run_nil, Writer.step,
    Writer.StartObject]
  generalize w.Prefix = P
  obtain ⟨o, S, h⟩ := P
  simp [Writer.Key, Writer.String, Writer.put, Writer.Prefix_cons, sepToks, Writer.EndObject,
    JVal.toks, JVal.membersToks, sampleObj]

theorem emits_status (env : Env) :
    Emits (Dashboard.serialize_status env)
      (statusObj ["version", "service", "uptime", "heap_usage", "cpu_freq", "current_time"]
        env).toks := by
  intro w
  simp only [Dashboard.serialize_status, Writer.run_cons, Writer.run_nil, Writer.step,
    Writer.StartObject]
  generalize w.Prefix = P
  obtain ⟨o, S, h⟩ := P
  simp [Writer.Key, Writer.String, Writer.put, Writer.Prefix_cons, sepToks, Writer.EndObject,
    JVal.toks, JVal.membersToks, statusObj]

/-- Inside an array, the bodies of a loop whose every iteration emits one
value append the texts of the values, comma separated. -/
theorem run_entries {α : Type} (entry : α → List Call) (text : α → List Tok)
    (hE : ∀ a, Emits (entry a) (text a)) (xs : List α) (o : List Tok) (c : Nat)
    (S : List Level) (h : Bool) :
    Writer.run { os_ := o, level_stack_ := { inArray := true, valueCount := c } :: S,
                 hasRoot_ := h } (xs.flatMap entry) =
      { os_ := o ++ joinElems (decide (c = 0)) (xs.map text),
        level_stack_ := { inArray := true, valueCount := c + xs.length } :: S,
        hasRoot_ := h } := by
  induction xs generalizing o c with
  | nil => simp [joinElems]
  | cons a rest ih =>
    rw [List.flatMap_cons, Writer.run_append, hE a, Writer.Prefix_cons]
    simp only [ih]
    by_cases hc : c = 0
    · subst hc; simp [joinElems, sepToks]; omega
    · have : c > 0 := Nat.pos_of_ne_zero hc
      simp [joinElems, sepToks, hc, this]; omega

/-- `StartArray`, a loop emitting one value per iteration, `EndArray`: emits
the array of the values. -/
theorem emits_array {α : Type} (entry : α → List Call) (text : α → List Tok)
    (hE : ∀ a, Emits (entry a) (text a)) (xs : List α) :
    Emits ([Call.StartArray] ++ xs.flatMap entry ++ [Call.EndArray])
      (arrToks (xs.map text)) := by
  intro w
  rw [List.append_assoc, List.singleton_append, Writer.run_cons, Writer.run_append]
  simp only [Writer.step, Writer.StartArray]
  generalize w.Prefix = P
  obtain ⟨o, S, h⟩ := P
  simp only [Writer.put]
  rw [run_entries entry text hE]
  simp [Writer.step, Writer.EndArray, Writer.put, arrToks]

theorem emits_memmap (env : Env) :
    Emits (Dashboard.serialize_memmap env)
      (JVal.arr (env.memory_map.map fun i =>
        regionObj (fun n => (toUnsigned n : Nat)) i.2)).toks := by
  rw [arr_toks_eq_arrToks, List.map_map]
  exact emits_array _ _ emits_memmap_entry env.memory_map

theorem emits_statman_text (env : Env) :
    Emits (Dashboard.serialize_statman env) (arrToks (env.statman.live.map statText)) :=
  emits_array _ _ emits_statman_entry env.statman.live

theorem statText_known {s : Stat} (h : s.type.known = true) : statText s = (statObj s).toks := by
  simp [statText, h]

theorem emits_statman (env : Env) (hty : ∀ s ∈ env.statman.live, s.type.known = true) :
    Emits (Dashboard.serialize_statman env) (JVal.arr (env.statman.live.map statObj)).toks := by
  rw [arr_toks_eq_arrToks, List.map_map]
  have h : env.statman.live.map statText = env.statman.live.map (JVal.toks ∘ statObj) :=
    List.map_congr_left fun s hs => statText_known (hty s hs)
  rw [← h]
  exact emits_statman_text env

theorem emits_stack_sampler (d : Dashboard) (env : Env) :
    Emits (d.serialize_stack_sampler env)
      (JVal.arr ((env.results d.stack_samples).map (sampleObj env.samples_total))).toks := by
  rw [arr_toks_eq_arrToks, List.map_map]
  exact emits_array _ _ (emits_stack_sampler_entry env.samples_total) _

end SerializerLemmas

/-! ## The aggregator: basic facts -/

section DashboardLemmas

theorem Dashboard.serve_writer (env : Env) (d : Dashboard) (res : Response) (r : Request) :
    (d.serve env res r).1.writer_ = Writer.fresh := by
  cases r <;> rfl

theorem Dashboard.serve_stack_samples (env : Env) (d : Dashboard) (res : Response)
    (r : Request) : (d.serve env res r).1.stack_samples = d.stack_samples := by
  cases r <;> rfl

theorem Dashboard.serveMany_idle (reqs : List (Env × Request)) (d : Dashboard)
    (hw : d.writer_ = Writer.fresh) :
    (d.serveMany reqs).writer_ = Writer.fresh ∧
      (d.serveMany reqs).stack_samples = d.stack_samples := by
  induction reqs generalizing d with
  | nil => exact ⟨hw, rfl⟩
  | cons a rest ih =>
    obtain ⟨env, r⟩ := a
    have h := ih (d.serve env [] r).1 (Dashboard.serve_writer env d [] r)
    rw [Dashboard.serve_stack_samples] at h
    exact h

theorem Dashboard.serveMany_new (reqs : List (Env × Request)) :
    (Dashboard.new.serveMany reqs).writer_ = Writer.fresh ∧
      (Dashboard.new.serveMany reqs).stack_samples = 12 :=
  Dashboard.serveMany_idle reqs Dashboard.new rfl

theorem Dashboard.body_memmap (env : Env) (d : Dashboard) (hw : d.writer_ = Writer.fresh) :
    d.body env Request.memmap = fragment (Dashboard.serialize_memmap env) := by
  simp [Dashboard.body, Dashboard.serve, Dashboard.serve_memmap, Dashboard.send_buffer,
    Dashboard.buffer_, fragment, hw]

theorem Dashboard.body_statman (env : Env) (d : Dashboard) (hw : d.writer_ = Writer.fresh) :
    d.body env Request.statman = fragment (Dashboard.serialize_statman env) := by
  simp [Dashboard.body, Dashboard.serve, Dashboard.serve_statman, Dashboard.send_buffer,
    Dashboard.buffer_, fragment, hw]

theorem Dashboard.body_stack_sampler (env : Env) (d : Dashboard)
    (hw : d.writer_ = Writer.fresh) :
    d.body env Request.stack_sampler = fragment (d.serialize_stack_sampler env) := by
  simp [Dashboard.body, Dashboard.serve, Dashboard.serve_stack_sampler, Dashboard.send_buffer,
    Dashboard.buffer_, fragment, hw]

/-- In an object whose last written item is a key, a sequence emitting a
value appends a colon and the value. -/
theorem Emits.run_after_key {cs : List Call} {t : List Tok} (h : Emits cs t) (o : List Tok)
    (c : Nat) (hc : c % 2 = 1) (S : List Level) (r : Bool) :
    Writer.run { os_ := o, level_stack_ := { inArray := false, valueCount := c } :: S,
                 hasRoot_ := r } cs =
      { os_ := o ++ [Tok.colon] ++ t,
        level_stack_ := { inArray := false, valueCount := c + 1 } :: S, hasRoot_ := r } := by
  have hpos : c > 0 := by omega
  rw [h, Writer.Prefix_cons]
  simp [sepToks, hpos, hc]

theorem Dashboard.serve_all_idle (env : Env) (d : Dashboard) (res : Response)
    (hw : d.writer_ = Writer.fresh) :
    (d.serve_all env res).2 = res ++
      [objToks [("memmap", fragment (Dashboard.serialize_memmap env)),
                ("statman", fragment (Dashboard.serialize_statman env)),
                ("stack_sampler", fragment (d.serialize_stack_sampler env)),
                ("status", fragment (Dashboard.serialize_status env))]] := by
  have hM := emits_memmap env
  have hS := emits_statman_text env
  have hK := emits_stack_sampler d env
  have hT := emits_status env
  simp only [Dashboard.serve_all, Dashboard.send_buffer, Dashboard.buffer_, hw]
  simp only [Writer.StartObject, Writer.Prefix_fresh, Writer.put, Writer.Key,
    Writer.Prefix_cons, List.nil_append, sepToks]
  rw [hM.run_after_key _ 1 rfl, hM.fragment_eq]
  simp only [Writer.Prefix_cons, sepToks]
  rw [hS.run_after_key _ 3 rfl, hS.fragment_eq]
  simp only [Writer.Prefix_cons, sepToks]
  rw [hK.run_after_key _ 5 rfl, hK.fragment_eq]
  simp only [Writer.Prefix_cons, sepToks]
  rw [hT.run_after_key _ 7 rfl, hT.fragment_eq]
  simp [Writer.EndObject, Writer.put, objToks, joinElems]

end DashboardLemmas

/-! ## Well nested call sequences: basic facts -/

section NestingLemmas

theorem nestRun_append (st : List Ctx) (a b : List Call) :
    nestRun st (a ++ b) = (nestRun st a).bind fun st1 => nestRun st1 b := by
  induction a generalizing st with
  | nil => simp [nestRun]
  | cons c cs ih =>
    simp only [List.cons_append, nestRun]
    cases nestStep st c with
    | none => rfl
    | some st1 => simpa using ih st1

/-- A loop whose every iteration is one value in an array keeps the array
open and the positions below it untouched. -/
theorem nestRun_entries {α : Type} (entry : α → List Call) (R : List Ctx) (xs : List α)
    (h : ∀ a ∈ xs, nestRun (Ctx.arr :: R) (entry a) = some (Ctx.arr :: R)) :
    nestRun (Ctx.arr :: R) (xs.flatMap entry) = some (Ctx.arr :: R) := by
  induction xs with
  | nil => rfl
  | cons a rest ih =>
    rw [List.flatMap_cons, nestRun_append, h a (List.mem_cons_self a rest)]
    exact ih fun b hb => h b (List.mem_cons_of_mem a hb)

theorem wellNested_array {α : Type} (entry : α → List Call) (xs : List α)
    (h : ∀ a ∈ xs, nestRun [Ctx.arr, Ctx.done] (entry a) = some [Ctx.arr, Ctx.done]) :
    wellNested ([Call.StartArray] ++ xs.flatMap entry ++ [Call.EndArray]) = true := by
  have h1 := nestRun_entries entry [Ctx.done] xs h
  simp [wellNested, nestRun, nestStep, Ctx.afterValue, nestRun_append, h1]

theorem nestRun_memmap_entry (R : List Ctx) (i : Nat × MemoryRegion) :
    nestRun (Ctx.arr :: R) (Dashboard.memmap_entry i) = some (Ctx.arr :: R) := rfl

theorem nestRun_stack_sampler_entry (R : List Ctx) (total : Int) (sa : Sample) :
    nestRun (Ctx.arr :: R) (Dashboard.stack_sampler_entry total sa) = some (Ctx.arr :: R) := rfl

theorem nestRun_statman_entry (R : List Ctx) (s : Stat) (h : s.type.known = true) :
    nestRun (Ctx.arr :: R) (Dashboard.statman_entry s) = some (Ctx.arr :: R) := by
  obtain ⟨name, ty, u64, u32, f, idx⟩ := s
  cases ty <;> first | rfl | simp [stat_type.known] at h

theorem nestRun_statman_entry_unknown (R : List Ctx) (s : Stat) (h : s.type.known = false) :
    nestRun (Ctx.arr :: R) (Dashboard.statman_entry s) = none := by
  obtain ⟨name, ty, u64, u32, f, idx⟩ := s
  cases ty <;> first | rfl | simp [stat_type.known] at h

theorem nestRun_statman_entries_unknown (R : List Ctx) (xs : List Stat)
    (h : ∃ s ∈ xs, s.type.known = false) :
    nestRun (Ctx.arr :: R) (xs.flatMap Dashboard.statman_entry) = none := by
  induction xs with
  | nil => simp at h
  | cons a rest ih =>
    rw [List.flatMap_cons, nestRun_append]
    cases hk : a.type.known with
    | false => rw [nestRun_statman_entry_unknown R a hk]; rfl
    | true =>
      rw [nestRun_statman_entry R a hk]
      obtain ⟨s, hs, hsk⟩ := h
      rcases List.mem_cons.mp hs with rfl | hmem
      · rw [hk] at hsk; cases hsk
      · exact ih ⟨s, hmem, hsk⟩

end NestingLemmas

section CountingLemmas

theorem countP_index_positions (xs : List Stat)
    (h : ∀ (i : Nat) (s : Stat), xs[i]? = some s → s.index = i) (j : Int) :
    xs.countP (fun s => s.index == j) = if 0 ≤ j ∧ j < xs.length then 1 else 0 := by
  induction xs using List.reverseRecOn with
  | nil =>
    have h0 : ¬ (0 ≤ j ∧ j < 0) := by omega
    simp [h0]
  | append_singleton ys a ih =>
    have hys : ∀ (i : Nat) (s : Stat), ys[i]? = some s → s.index = i := by
      intro i s hi
      apply h i s
      have hlt : i < ys.length := by
        by_contra hge
        rw [List.getElem?_eq_none (by omega)] at hi
        cases hi
      rw [List.getElem?_append_left hlt]
      exact hi
    have ha : a.index = ys.length := by
      apply h ys.length a
      simp
    rw [List.countP_append, ih hys]
    simp only [List.countP_cons, List.countP_nil, List.length_append, List.length_singleton,
      ha, Nat.cast_add, Nat.cast_one]
    by_cases h1 : 0 ≤ j ∧ j < (ys.length : Int)
    · have : ¬ ((ys.length : Int) = j) := by omega
      have h2 : 0 ≤ j ∧ j < (ys.length : Int) + 1 := by omega
      simp [h1, h2, this]
    · by_cases h3 : (ys.length : Int) = j
      · have h2 : 0 ≤ j ∧ j < (ys.length : Int) + 1 := by omega
        simp [h1, h2, h3]
      · have h2 : ¬ (0 ≤ j ∧ j < (ys.length : Int) + 1) := by omega
        simp [h1, h2, h3]

theorem countIndex_statObj (xs : List Stat) (j : Int) :
    countIndex j (xs.map statObj) = xs.countP (fun s => s.index == j) := by
  unfold countIndex
  rw [List.countP_map]
  congr 1

end CountingLemmas

section FloatLemmas

theorem Fp.log2Aux_le (f n : Nat) (hn : 1 ≤ n) : 2 ^ Fp.log2Aux f n ≤ n := by
  induction f generalizing n with
  | zero => simpa [Fp.log2Aux] using hn
  | succ f ih =>
    unfold Fp.log2Aux
    by_cases h2 : n < 2
    · simpa [h2] using hn
    · simp only [h2, if_false]
      have h1 : 1 ≤ n / 2 := by omega
      have := ih (n / 2) h1
      rw [pow_succ]
      omega

theorem Fp.ilog2_one_le (n : Nat) : Fp.ilog2 n 1 ≤ (Fp.log2 n : Int) := by
  have hb : Fp.log2 1 = 0 := rfl
  unfold Fp.ilog2
  simp only [hb]
  split_ifs <;> omega

theorem Fp.pow2_pos (e : Int) : 0 < Fp.pow2 e := by
  unfold Fp.pow2
  split_ifs <;> positivity

/-- The unit in the last place of the `float` nearest to a positive integer
is at most that integer. -/
theorem Fp.ulp_le (n : Nat) (hn : 1 ≤ n) :
    Fp.pow2 (max (Fp.ilog2 n 1) (-126) - ((24 - 1 : Nat) : Int)) ≤ (n : ℚ) := by
  have h1 := Fp.ilog2_one_le n
  have h2 : 2 ^ Fp.log2 n ≤ n := Fp.log2Aux_le n n hn
  have hn1 : (1 : ℚ) ≤ n := by exact_mod_cast hn
  unfold Fp.pow2
  split_ifs with h
  · have hk : (max (Fp.ilog2 n 1) (-126) - ((24 - 1 : Nat) : Int)).toNat ≤ Fp.log2 n := by
      omega
    calc (2 : ℚ) ^ (max (Fp.ilog2 n 1) (-126) - ((24 - 1 : Nat) : Int)).toNat
        ≤ (2 : ℚ) ^ Fp.log2 n := pow_le_pow_right₀ (by norm_num) hk
      _ ≤ (n : ℚ) := by exact_mod_cast h2
  · have hp : (1 : ℚ) ≤ 2 ^ (-(max (Fp.ilog2 n 1) (-126) - ((24 - 1 : Nat) : Int))).toNat :=
      one_le_pow₀ (by norm_num)
    calc (1 : ℚ) / 2 ^ (-(max (Fp.ilog2 n 1) (-126) - ((24 - 1 : Nat) : Int))).toNat
        ≤ 1 := by
          rw [div_le_one (by positivity)]
          exact hp
      _ ≤ (n : ℚ) := hn1

theorem Fp.roundHalfEven_pos (x : ℚ) (hx : 1 ≤ x) : 1 ≤ Fp.roundHalfEven x := by
  have hf : (1 : Int) ≤ Rat.floor x := Rat.le_floor.mpr (by exact_mod_cast hx)
  unfold Fp.roundHalfEven
  simp only
  split_ifs <;> omega

/-- The `float` nearest to a positive integer is positive or `+inf`. -/
theorem Fp.ofInt_pos (n : Nat) (hn : 1 ≤ n) :
    Fp.ofInt (n : Int) = Fp.inf false ∨ ∃ r : ℚ, 0 < r ∧ Fp.ofInt (n : Int) = Fp.finite r := by
  have hq : ((n : Int) : ℚ) = (n : ℚ) := by norm_cast
  have hn0 : (0 : ℚ) < n := by exact_mod_cast hn
  have hne : ¬ ((n : ℚ) = 0) := ne_of_gt hn0
  have hlt : ¬ ((n : ℚ) < 0) := not_lt.mpr hn0.le
  have hulp := Fp.ulp_le n hn
  have hpos := Fp.pow2_pos (max (Fp.ilog2 n 1) (-126) - ((24 - 1 : Nat) : Int))
  have hm : 1 ≤ Fp.roundHalfEven
      ((n : ℚ) / Fp.pow2 (max (Fp.ilog2 n 1) (-126) - ((24 - 1 : Nat) : Int))) :=
    Fp.roundHalfEven_pos _ ((one_le_div hpos).mpr hulp)
  have hr : (0 : ℚ) < (Fp.roundHalfEven
      ((n : ℚ) / Fp.pow2 (max (Fp.ilog2 n 1) (-126) - ((24 - 1 : Nat) : Int))) : ℚ) *
        Fp.pow2 (max (Fp.ilog2 n 1) (-126) - ((24 - 1 : Nat) : Int)) := by
    apply mul_pos _ hpos
    exact_mod_cast hm
  unfold Fp.ofInt Fp.round32 Fp.roundTo
  rw [hq]
  simp only [hne, if_false, Rat.num_natCast, Rat.den_natCast, Int.natAbs_ofNat, hlt,
    decide_False]
  split_ifs with h1 h2
  · exact Or.inl rfl
  · exact absurd h2 (ne_of_gt hr)
  · exact Or.inr ⟨_, hr, rfl⟩

theorem Fp.ofInt_zero : Fp.ofInt 0 = Fp.finite 0 := by
  simp [Fp.ofInt, Fp.round32, Fp.roundTo]

/-- With a total of zero the quotient has no numeric value: the percentage
is NaN for a sample without hits and `+inf` for any other sample. -/
theorem Dashboard.perc_zero_total (sa : Sample) :
    Dashboard.perc sa 0 = if sa.samp = 0 then Fp.nan else Fp.inf false := by
  unfold Dashboard.perc
  rw [Fp.ofInt_zero]
  by_cases h0 : sa.samp = 0
  · simp [h0, Fp.ofInt_zero, Fp.div32, Fp.mul32, Fp.isZero]
  · simp only [h0, if_false]
    rcases Fp.ofInt_pos sa.samp (by omega) with h | ⟨r, hr, h⟩
    · rw [h]
      simp [Fp.div32, Fp.mul32, Fp.isZero, Fp.sign]
    · rw [h]
      have hr0 : ¬ (r = 0) := ne_of_gt hr
      have hrn : ¬ (r < 0) := not_lt.mpr hr.le
      simp [Fp.div32, Fp.mul32, Fp.isZero, Fp.sign, hr0, hrn]

end FloatLemmas

/-! ## Two texts written out in full -/

section Examples

/-- The text emitted for `Env.zeroTotal`. -/
theorem zero_total_text :
    fragment (Dashboard.new.serialize_stack_sampler Env.zeroTotal) =
      [Tok.lbrack,
        Tok.lbrace, Tok.str "address", Tok.colon, Tok.int 4096, Tok.comma,
          Tok.str "name", Tok.colon, Tok.str "main", Tok.comma,
          Tok.str "total", Tok.colon, Tok.int 3, Tok.comma,
          Tok.str "percent", Tok.colon, Tok.dbl (Fp.inf false), Tok.rbrace,
        Tok.comma,
        Tok.lbrace, Tok.str "address", Tok.colon, Tok.int 8192, Tok.comma,
          Tok.str "name", Tok.colon, Tok.str "idle", Tok.comma,
          Tok.str "total", Tok.colon, Tok.int 0, Tok.comma,
          Tok.str "percent", Tok.colon, Tok.dbl Fp.nan, Tok.rbrace,
        Tok.rbrack] := by
  rw [(emits_stack_sampler _ _).fragment_eq]
  have h0 : Env.zeroTotal.samples_total = 0 := rfl
  rw [h0]
  simp [Env.zeroTotal, Env.quiet, Dashboard.new, sampleObj, Dashboard.perc_zero_total,
    JVal.toks, JVal.elemsToks, JVal.membersToks, toUnsigned]

/-- The text emitted for `Env.unknownType`. -/
theorem unknown_type_text :
    fragment (Dashboard.serialize_statman Env.unknownType) =
      [Tok.lbrack, Tok.lbrace, Tok.str "name", Tok.colon, Tok.str "x", Tok.comma,
        Tok.str "value", Tok.colon, Tok.str "type", Tok.comma, Tok.str "", Tok.colon,
        Tok.str "index", Tok.comma, Tok.int 0, Tok.rbrace, Tok.rbrack] := by
  decide

end Examples

theorem Writer.Prefix_nil (o : List Tok) (h : Bool) :
    Writer.Prefix { os_ := o, level_stack_ := [], hasRoot_ := h } =
      { os_ := o, level_stack_ := [], hasRoot_ := true } := rfl

/-- At the root, a sequence emitting a value appends the value to what the
buffer holds. -/
theorem Emits.run_root {cs : List Call} {t : List Tok} (h : Emits cs t) (o : List Tok)
    (r : Bool) :
    Writer.run { os_ := o, level_stack_ := [], hasRoot_ := r } cs =
      { os_ := o ++ t, level_stack_ := [], hasRoot_ := true } := by
  rw [h, Writer.Prefix_nil]

theorem Dashboard.serve_all_root (env : Env) (d : Dashboard) (res : Response) (pre : List Tok)
    (hw : d.writer_ = { os_ := pre, level_stack_ := [], hasRoot_ := false }) :
    (d.serve_all env res).2 = res ++
      [pre ++ objToks [("memmap", fragment (Dashboard.serialize_memmap env)),
                ("statman", fragment (Dashboard.serialize_statman env)),
                ("stack_sampler", fragment (d.serialize_stack_sampler env)),
                ("status", fragment (Dashboard.serialize_status env))]] := by
  have hM := emits_memmap env
  have hS := emits_statman_text env
  have hK := emits_stack_sampler d env
  have hT := emits_status env
  simp only [Dashboard.serve_all, Dashboard.send_buffer, Dashboard.buffer_, hw]
  simp only [Writer.StartObject, Writer.Prefix_nil, Writer.put, Writer.Key,
    Writer.Prefix_cons, sepToks]
  rw [hM.run_after_key _ 1 rfl, hM.fragment_eq]
  simp only [Writer.Prefix_cons, sepToks]
  rw [hS.run_after_key _ 3 rfl, hS.fragment_eq]
  simp only [Writer.Prefix_cons, sepToks]
  rw [hK.run_after_key _ 5 rfl, hK.fragment_eq]
  simp only [Writer.Prefix_cons, sepToks]
  rw [hT.run_after_key _ 7 rfl, hT.fragment_eq]
  simp [Writer.EndObject, Writer.put, objToks, joinElems]

/-- Body sent from a buffer holding `pre`, nothing open. -/
theorem Dashboard.body_root (env : Env) (d : Dashboard) (r : Request) (pre : List Tok)
    (hw : d.writer_ = { os_ := pre, level_stack_ := [], hasRoot_ := false }) :
    d.body env r = pre ++
      match r with
      | Request.all =>
          objToks [("memmap", fragment (Dashboard.serialize_memmap env)),
            ("statman", fragment (Dashboard.serialize_statman env)),
            ("stack_sampler", fragment (d.serialize_stack_sampler env)),
            ("status", fragment (Dashboard.serialize_status env))]
      | Request.memmap => fragment (Dashboard.serialize_memmap env)
      | Request.statman => fragment (Dashboard.serialize_statman env)
      | Request.stack_sampler => fragment (d.serialize_stack_sampler env) := by
  cases r
  · simp [Dashboard.body, Dashboard.serve, Dashboard.serve_all_root env d [] pre hw]
  · simp [Dashboard.body, Dashboard.serve, Dashboard.serve_memmap, Dashboard.send_buffer,
      Dashboard.buffer_, hw, (emits_memmap env).run_root, (emits_memmap env).fragment_eq]
  · simp [Dashboard.body, Dashboard.serve, Dashboard.serve_statman, Dashboard.send_buffer,
      Dashboard.buffer_, hw, (emits_statman_text env).run_root,
      (emits_statman_text env).fragment_eq]
  · simp [Dashboard.body, Dashboard.serve, Dashboard.serve_stack_sampler, Dashboard.send_buffer,
      Dashboard.buffer_, hw, (emits_stack_sampler d env).run_root,
      (emits_stack_sampler d env).fragment_eq]

/-- The body depends on the dashboard only through the buffer content, the
writer state and `stack_samples`. -/
theorem Dashboard.body_congr (env : Env) (d1 d2 : Dashboard) (r : Request)
    (hw : d1.writer_ = d2.writer_) (hn : d1.stack_samples = d2.stack_samples) :
    d1.body env r = d2.body env r := by
  obtain ⟨w1, n1⟩ := d1
  obtain ⟨w2, n2⟩ := d2
  simp only at hw hn
  subst hw hn
  rfl

section RenderLemmas

theorem renderToks_append (dtoa : Fp → List Char) (a b : List Tok) :
    renderToks dtoa (a ++ b) = renderToks dtoa a ++ renderToks dtoa b := by
  simp [renderToks, List.flatMap_append]

theorem renderToks_joinElems_false (dtoa : Fp → List Char) (xs : List (List Tok)) :
    renderToks dtoa (joinElems false xs) = xs.flatMap fun x => ',' :: renderToks dtoa x := by
  induction xs with
  | nil => rfl
  | cons x rest ih =>
    simp only [joinElems, renderToks_append, ih, List.flatMap_cons]
    rfl

theorem commaSep_cons (x : List Char) (xs : List (List Char)) :
    commaSep (x :: xs) = x ++ xs.flatMap fun y => ',' :: y := by
  induction xs generalizing x with
  | nil => simp [commaSep]
  | cons y rest ih => simp [commaSep, ih]

theorem renderToks_joinElems_true (dtoa : Fp → List Char) (xs : List (List Tok)) :
    renderToks dtoa (joinElems true xs) = commaSep (xs.map (renderToks dtoa)) := by
  cases xs with
  | nil => rfl
  | cons x rest =>
    simp only [joinElems, renderToks_append, renderToks_joinElems_false, List.map_cons,
      commaSep_cons, List.flatMap_map]
    rfl

/-- Text of an array: `[`, the texts of the elements separated by commas,
`]`. -/
theorem renderToks_arrToks (dtoa : Fp → List Char) (xs : List (List Tok)) :
    renderToks dtoa (arrToks xs) = ['['] ++ commaSep (xs.map (renderToks dtoa)) ++ [']'] := by
  simp only [arrToks, renderToks_append, renderToks_joinElems_true]
  rfl

theorem renderToks_regionObj (dtoa : Fp → List Char) (r : MemoryRegion) :
    renderToks dtoa (regionObj (fun n => (toUnsigned n : Nat)) r).toks = regionText r := by
  simp only [renderToks, regionObj, JVal.toks, JVal.membersToks, regionText, toUnsigned,
    List.flatMap_cons, List.flatMap_nil, List.flatMap_append, Tok.render, List.append_assoc,
    List.cons_append, List.nil_append, List.append_nil, if_true, if_false, Bool.false_eq_true]
  rfl

end RenderLemmas

section BoundedLemmas

theorem Dashboard.serve_eq_entry_calls (env : Env) (d : Dashboard) (res : Response)
    (r : Request) :
    d.serve env res r =
      Dashboard.send_buffer { d with writer_ := d.writer_.run (d.entry_calls env r) } res := by
  cases r
  · simp [Dashboard.serve, Dashboard.serve_all, Dashboard.entry_calls, Writer.run_append,
      Writer.step]
  · rfl
  · rfl
  · rfl

theorem Dashboard.body_eq_entry_calls (env : Env) (d : Dashboard) (r : Request) :
    d.body env r = (d.writer_.run (d.entry_calls env r)).os_ := by
  simp [Dashboard.body, Dashboard.serve_eq_entry_calls, Dashboard.send_buffer,
    Dashboard.buffer_]

theorem byteLength_append (a b : List Char) :
    byteLength (a ++ b) = byteLength a + byteLength b := by
  simp [byteLength]

theorem Writer.Prefix_os (w : Writer) : ∃ extra, w.Prefix.os_ = w.os_ ++ extra := by
  obtain ⟨o, S, h⟩ := w
  cases S with
  | nil => exact ⟨[], by simp [Writer.Prefix_nil]⟩
  | cons level rest =>
    obtain ⟨a, c⟩ := level
    rw [Writer.Prefix_cons]
    exact ⟨sepToks a c, rfl⟩

/-- A call only appends to the buffer. -/
theorem Writer.step_os (w : Writer) (c : Call) : ∃ extra, (w.step c).os_ = w.os_ ++ extra := by
  obtain ⟨e, he⟩ := Writer.Prefix_os w
  cases c <;>
    simp only [Writer.step, Writer.StartObject, Writer.StartArray, Writer.EndObject,
      Writer.EndArray, Writer.Key, Writer.String, Writer.put, he, List.append_assoc] <;>
    exact ⟨_, rfl⟩

theorem Writer.run_os (w : Writer) (cs : List Call) :
    ∃ extra, (w.run cs).os_ = w.os_ ++ extra := by
  induction cs generalizing w with
  | nil => exact ⟨[], by simp⟩
  | cons c cs ih =>
    obtain ⟨e1, h1⟩ := Writer.step_os w c
    obtain ⟨e2, h2⟩ := ih (w.step c)
    exact ⟨e1 ++ e2, by rw [Writer.run_cons, h2, h1, List.append_assoc]⟩

/-- The text in the buffer never gets shorter during a sequence of calls. -/
theorem Writer.run_length_mono (dtoa : Fp → List Char) (w : Writer) (cs : List Call) :
    byteLength (renderToks dtoa w.os_) ≤ byteLength (renderToks dtoa (w.run cs).os_) := by
  obtain ⟨e, he⟩ := Writer.run_os w cs
  rw [he, renderToks_append, byteLength_append]
  omega

/-- With the bounded buffer a non-empty sequence of calls goes through
exactly when the final text fits, and then as without the bound. -/
theorem Writer.runBounded_eq (dtoa : Fp → List Char) (cap : Nat) (w : Writer) (cs : List Call)
    (hcs : cs ≠ []) :
    Writer.runBounded dtoa cap w cs =
      if byteLength (renderToks dtoa (w.run cs).os_) ≤ cap then some (w.run cs) else none := by
  induction cs generalizing w with
  | nil => exact absurd rfl hcs
  | cons c cs ih =>
    have hmono := Writer.run_length_mono dtoa (w.step c) cs
    simp only [Writer.runBounded, Writer.stepBounded, Writer.run_cons]
    by_cases hstep : byteLength (renderToks dtoa (w.step c).os_) ≤ cap
    · simp only [hstep, if_true, Option.some_bind]
      cases cs with
      | nil => simp [Writer.runBounded, hstep]
      | cons c2 cs2 => exact ih (w.step c) (by simp)
    · have hfin : ¬ byteLength (renderToks dtoa ((w.step c).run cs).os_) ≤ cap := by omega
      simp [hstep, hfin]

theorem Dashboard.entry_calls_ne_nil (d : Dashboard) (env : Env) (r : Request) :
    d.entry_calls env r ≠ [] := by
  cases r <;> simp [Dashboard.entry_calls, Dashboard.serialize_memmap,
    Dashboard.serialize_statman, Dashboard.serialize_stack_sampler]

/-- A request with the bounded buffer: fatal when the document is longer
than the capacity, otherwise served as without the bound. -/
theorem Dashboard.serveBounded_eq (dtoa : Fp → List Char) (env : Env) (d : Dashboard)
    (res : Response) (r : Request) :
    d.serveBounded dtoa env res r =
      if byteLength (renderToks dtoa (d.body env r)) ≤ Dashboard.capacity
      then some (d.serve env res r) else none := by
  unfold Dashboard.serveBounded
  rw [Writer.runBounded_eq dtoa _ _ _ (Dashboard.entry_calls_ne_nil d env r),
    Dashboard.body_eq_entry_calls, Dashboard.serve_eq_entry_calls]
  split_ifs <;> rfl

/-- A document that does not fit: the region with the long name. -/
theorem long_name_overflows :
    Dashboard.new.serveBounded (fun _ => []) Env.longName [] Request.memmap = none := by
  rw [Dashboard.serveBounded_eq]
  decide!

end BoundedLemmas

section CalendarLemmas

theorem yoe_eq (N f q s k δ : Int) (hN : N = 36524 * f + 1461 * q + s)
    (_hf0 : 0 ≤ f) (_hf : f ≤ 3) (hq0 : 0 ≤ q) (hq : q ≤ 24) (hk0 : 0 ≤ k) (hk : k ≤ 3)
    (hs : 365 * k ≤ s - δ) (hs1 : s - δ ≤ 365 * k + 364)
    (hδ : (δ = 0 ∧ 24 * f + q + s < 1460) ∨
      (δ = 1 ∧ 1460 ≤ 24 * f + q + s ∧ 24 * f + q + s < 2920))
    (hf36 : N / 36524 = f) (hg : N / 146096 = 0) :
    (N - N / 1460 + N / 36524 - N / 146096) / 365 = 100 * f + 4 * q + k := by
  have he : N / 1460 = 25 * f + q + δ := by omega
  rw [he, hf36, hg]
  omega

theorem yoe_ok (N yoe doy : Int) (h0 : 0 ≤ N) (h1 : N < 146097)
    (hyoe : yoe = (N - N / 1460 + N / 36524 - N / 146096) / 365)
    (hdoy : doy = N - (365 * yoe + yoe / 4 - yoe / 100)) :
    0 ≤ yoe ∧ yoe ≤ 399 ∧ 0 ≤ doy ∧ doy ≤ 365 ∧
    (doy = 365 → yoe % 4 = 3 ∧ (yoe % 100 ≠ 99 ∨ yoe = 399)) := by
  by_cases hlast : N = 146096
  · subst hlast
    norm_num at hyoe
    subst hyoe
    norm_num at hdoy
    subst hdoy
    norm_num
  · have hg : N / 146096 = 0 := by omega
    obtain ⟨f, hf36⟩ : ∃ f, N / 36524 = f := ⟨_, rfl⟩
    have hf0 : 0 ≤ f := by omega
    have hf : f ≤ 3 := by omega
    obtain ⟨q, hqd⟩ : ∃ q, (N - 36524 * f) / 1461 = q := ⟨_, rfl⟩
    have hq0 : 0 ≤ q := by omega
    have hq : q ≤ 24 := by omega
    obtain ⟨s, hN⟩ : ∃ s, N = 36524 * f + 1461 * q + s := ⟨N - 36524 * f - 1461 * q, by ring⟩
    have hs0 : 0 ≤ s := by omega
    have hs1 : s ≤ 1460 := by omega
    have hs2 : q = 24 → s ≤ 1459 := by omega
    obtain ⟨δ, hδ⟩ : ∃ δ : Int, (δ = 0 ∧ 24 * f + q + s < 1460) ∨
        (δ = 1 ∧ 1460 ≤ 24 * f + q + s ∧ 24 * f + q + s < 2920) := by
      by_cases h : 24 * f + q + s < 1460
      · exact ⟨0, Or.inl ⟨rfl, h⟩⟩
      · exact ⟨1, Or.inr ⟨rfl, by omega, by omega⟩⟩
    obtain ⟨k, hkd⟩ : ∃ k, (s - δ) / 365 = k := ⟨_, rfl⟩
    have hk0 : 0 ≤ k := by omega
    have hk : k ≤ 3 := by omega
    have hy := yoe_eq N f q s k δ hN hf0 hf hq0 hq hk0 hk (by omega) (by omega) hδ hf36 hg
    rw [hy] at hyoe
    have h4 : yoe / 4 = 25 * f + q := by omega
    have h100 : yoe / 100 = f := by omega
    rw [h4, h100] at hdoy
    omega

theorem month_day_ok (doy mp d m : Int) (h0 : 0 ≤ doy) (h1 : doy ≤ 365)
    (hmp : mp = (5 * doy + 2) / 153) (hd : d = doy - (153 * mp + 2) / 5 + 1)
    (hm : m = if mp < 10 then mp + 3 else mp - 9) :
    1 ≤ m ∧ m ≤ 12 ∧ 1 ≤ d ∧
    (m = 3 → doy = d - 1 ∧ d ≤ 31) ∧ (m = 4 → doy = 31 + d - 1 ∧ d ≤ 30) ∧
    (m = 5 → doy = 61 + d - 1 ∧ d ≤ 31) ∧ (m = 6 → doy = 92 + d - 1 ∧ d ≤ 30) ∧
    (m = 7 → doy = 122 + d - 1 ∧ d ≤ 31) ∧ (m = 8 → doy = 153 + d - 1 ∧ d ≤ 31) ∧
    (m = 9 → doy = 184 + d - 1 ∧ d ≤ 30) ∧ (m = 10 → doy = 214 + d - 1 ∧ d ≤ 31) ∧
    (m = 11 → doy = 245 + d - 1 ∧ d ≤ 30) ∧ (m = 12 → doy = 275 + d - 1 ∧ d ≤ 31) ∧
    (m = 1 → doy = 306 + d - 1 ∧ d ≤ 31) ∧
    (m = 2 → doy = 337 + d - 1 ∧ d ≤ 29 ∧ (d = 29 → doy = 365)) := by
  have hmp0 : 0 ≤ mp := by omega
  have hmp1 : mp ≤ 11 := by omega
  have hcases : mp = 0 ∨ mp = 1 ∨ mp = 2 ∨ mp = 3 ∨ mp = 4 ∨ mp = 5 ∨ mp = 6 ∨ mp = 7 ∨
      mp = 8 ∨ mp = 9 ∨ mp = 10 ∨ mp = 11 := by omega
  rcases hcases with h | h | h | h | h | h | h | h | h | h | h | h <;>
    (subst h; norm_num at hd hm; subst hm; omega)

theorem isLeap_iff (Y : Int) :
    isLeap Y = true ↔ (Y % 4 = 0 ∧ Y % 100 ≠ 0) ∨ Y % 400 = 0 := by
  simp [isLeap]

theorem isLeap_shift (Y era : Int) : isLeap (Y + era * 400) = isLeap Y := by
  rw [Bool.eq_iff_iff, isLeap_iff, isLeap_iff]
  omega

theorem daysBeforeYear_shift (Y era : Int) :
    daysBeforeYear (Y + era * 400) = daysBeforeYear Y + 146097 * era := by
  unfold daysBeforeYear
  omega

/-- Leap years up to and including `Y`. -/
theorem leap_count (Y l : Int) (hl : (l = 1 ∧ isLeap Y = true) ∨ (l = 0 ∧ isLeap Y = false)) :
    (Y - 1) / 4 - (Y - 1) / 100 + (Y - 1) / 400 + l = Y / 4 - Y / 100 + Y / 400 := by
  have h4 : (Y - 1) / 4 = Y / 4 - (if Y % 4 = 0 then 1 else 0) := by split_ifs <;> omega
  have h100 : (Y - 1) / 100 = Y / 100 - (if Y % 100 = 0 then 1 else 0) := by split_ifs <;> omega
  have h400 : (Y - 1) / 400 = Y / 400 - (if Y % 400 = 0 then 1 else 0) := by split_ifs <;> omega
  rw [h4, h100, h400]
  have hiff := isLeap_iff Y
  rcases hl with ⟨h1, h2⟩ | ⟨h1, h2⟩
  · have hc := hiff.mp h2
    subst h1
    split_ifs <;> omega
  · have hc : ¬ ((Y % 4 = 0 ∧ Y % 100 ≠ 0) ∨ Y % 400 = 0) := by
      intro h
      rw [hiff.mpr h] at h2
      cases h2
    subst h1
    split_ifs <;> omega

theorem civil_era_free (yoe doy d m Y : Int) (hy0 : 0 ≤ yoe) (hy1 : yoe ≤ 399)
    (hleap : doy = 365 → yoe % 4 = 3 ∧ (yoe % 100 ≠ 99 ∨ yoe = 399))
    (hm1 : 1 ≤ m) (hm12 : m ≤ 12)
    (h3 : m = 3 → doy = d - 1 ∧ d ≤ 31) (h4 : m = 4 → doy = 31 + d - 1 ∧ d ≤ 30)
    (h5 : m = 5 → doy = 61 + d - 1 ∧ d ≤ 31) (h6 : m = 6 → doy = 92 + d - 1 ∧ d ≤ 30)
    (h7 : m = 7 → doy = 122 + d - 1 ∧ d ≤ 31) (h8 : m = 8 → doy = 153 + d - 1 ∧ d ≤ 31)
    (h9 : m = 9 → doy = 184 + d - 1 ∧ d ≤ 30) (h10 : m = 10 → doy = 214 + d - 1 ∧ d ≤ 31)
    (h11 : m = 11 → doy = 245 + d - 1 ∧ d ≤ 30) (h12 : m = 12 → doy = 275 + d - 1 ∧ d ≤ 31)
    (hjan : m = 1 → doy = 306 + d - 1 ∧ d ≤ 31)
    (hfeb : m = 2 → doy = 337 + d - 1 ∧ d ≤ 29 ∧ (d = 29 → doy = 365))
    (hY : Y = yoe + (if m ≤ 2 then 1 else 0)) :
    d ≤ daysInMonth Y m ∧
    daysBeforeYear Y + daysBeforeMonth Y m + (d - 1) =
      365 * yoe + yoe / 4 - yoe / 100 + doy - 719468 := by
  obtain ⟨l, hl⟩ : ∃ l : Int, (l = 1 ∧ isLeap Y = true) ∨ (l = 0 ∧ isLeap Y = false) := by
    cases h : isLeap Y
    · exact ⟨0, Or.inr ⟨rfl, rfl⟩⟩
    · exact ⟨1, Or.inl ⟨rfl, rfl⟩⟩
  have hcount := leap_count Y l hl
  have hiff := isLeap_iff Y
  have hl01 : l = 0 ∨ l = 1 := by rcases hl with ⟨h, _⟩ | ⟨h, _⟩ <;> omega
  have hlcond : l = 1 ↔ ((Y % 4 = 0 ∧ Y % 100 ≠ 0) ∨ Y % 400 = 0) := by
    rcases hl with ⟨h1, h2⟩ | ⟨h1, h2⟩
    · exact ⟨fun _ => hiff.mp h2, fun _ => h1⟩
    · constructor
      · intro h; omega
      · intro h
        rw [hiff.mpr h] at h2
        cases h2
  have hlif : (if isLeap Y = true then (1 : Int) else 0) = l := by
    rcases hl with ⟨h1, h2⟩ | ⟨h1, h2⟩ <;> simp [h1, h2]
  have hlif2 : (if isLeap Y = true then (29 : Int) else 28) = 28 + l := by
    rcases hl with ⟨h1, h2⟩ | ⟨h1, h2⟩ <;> simp [h1, h2]
  have h400 : yoe / 400 = 0 := by omega
  by_cases hm2 : m ≤ 2
  · have hYe : Y = yoe + 1 := by rw [hY]; simp [hm2]
    have hfl : doy = 365 → l = 1 := by
      intro h365
      obtain ⟨ha, hb⟩ := hleap h365
      apply hlcond.mpr
      rw [hYe]
      omega
    have hby : daysBeforeYear Y = 365 * (yoe - 1969) + (yoe / 4 - yoe / 100 + yoe / 400 - 477) := by
      rw [hYe]
      unfold daysBeforeYear
      simp only [add_sub_cancel_right]
      ring
    rw [hby]
    clear hcount hlcond hiff hY hl
    have hmc : m = 1 ∨ m = 2 := by omega
    rcases hmc with h | h <;>
      (subst h
       norm_num [daysInMonth, daysBeforeMonth, hlif, hlif2] at h3 h4 h5 h6 h7 h8 h9 h10 h11 h12 hjan hfeb ⊢
       omega)
  · have hYe : Y = yoe := by rw [hY]; simp [hm2]
    subst hYe
    clear hlcond hiff hY hl hleap
    have hmc : m = 3 ∨ m = 4 ∨ m = 5 ∨ m = 6 ∨ m = 7 ∨ m = 8 ∨ m = 9 ∨
        m = 10 ∨ m = 11 ∨ m = 12 := by omega
    unfold daysBeforeYear
    rcases hmc with h | h | h | h | h | h | h | h | h | h <;>
      (subst h
       norm_num [daysInMonth, daysBeforeMonth, hlif] at h3 h4 h5 h6 h7 h8 h9 h10 h11 h12 hjan hfeb ⊢
       omega)

theorem civil_core (z era doe yoe doy mp d m y : Int)
    (hera : era = z / 146097) (hdoe : doe = z % 146097)
    (hyoe : yoe = (doe - doe / 1460 + doe / 36524 - doe / 146096) / 365)
    (hdoy : doy = doe - (365 * yoe + yoe / 4 - yoe / 100))
    (hmp : mp = (5 * doy + 2) / 153) (hd : d = doy - (153 * mp + 2) / 5 + 1)
    (hm : m = if mp < 10 then mp + 3 else mp - 9)
    (hy : y = yoe + era * 400 + (if m ≤ 2 then 1 else 0)) :
    1 ≤ m ∧ m ≤ 12 ∧ 1 ≤ d ∧ d ≤ daysInMonth y m ∧
    daysBeforeYear y + daysBeforeMonth y m + (d - 1) = z - 719468 := by
  have hdoe0 : 0 ≤ doe := by omega
  have hdoe1 : doe < 146097 := by omega
  obtain ⟨hy0, hy1, hdoy0, hdoy1, hleap⟩ := yoe_ok doe yoe doy hdoe0 hdoe1 hyoe hdoy
  obtain ⟨hm1, hm12, hd1, h3, h4, h5, h6, h7, h8, h9, h10, h11, h12, hjan, hfeb⟩ :=
    month_day_ok doy mp d m hdoy0 hdoy1 hmp hd hm
  have hzz : z = 146097 * era + doe := by omega
  obtain ⟨Y, hY⟩ : ∃ Y, Y = yoe + (if m ≤ 2 then 1 else 0) := ⟨_, rfl⟩
  have hyY : y = Y + era * 400 := by rw [hy, hY]; ring
  obtain ⟨hdim, hdays⟩ := civil_era_free yoe doy d m Y hy0 hy1 hleap hm1 hm12 h3 h4 h5 h6 h7 h8
    h9 h10 h11 h12 hjan hfeb hY
  have hdm : daysInMonth y m = daysInMonth Y m := by
    rw [hyY]; unfold daysInMonth; rw [isLeap_shift]
  have hbm : daysBeforeMonth y m = daysBeforeMonth Y m := by
    rw [hyY]; unfold daysBeforeMonth; rw [isLeap_shift]
  have hby : daysBeforeYear y = daysBeforeYear Y + 146097 * era := by
    rw [hyY]; exact daysBeforeYear_shift Y era
  rw [hdm, hbm, hby]
  refine ⟨hm1, hm12, hd1, hdim, ?_⟩
  omega

end CalendarLemmas

section GmtimeLemmas

/-- The fields of `gmtime t` are a date of the civil calendar, and the date
and the time of day lie `t` seconds after 1970-01-01T00:00:00Z. -/
theorem gmtime_spec (t : Int) :
    ∃ y m d : Int,
      gmtime t = { tm_sec := t % 86400 % 60, tm_min := t % 86400 / 60 % 60,
                   tm_hour := t % 86400 / 3600, tm_mday := d, tm_mon := m - 1,
                   tm_year := y - 1900 } ∧
      1 ≤ m ∧ m ≤ 12 ∧ 1 ≤ d ∧ d ≤ daysInMonth y m ∧
      daysBeforeYear y + daysBeforeMonth y m + (d - 1) = t / 86400 := by
  refine ⟨_, _, _, rfl, ?_⟩
  obtain ⟨h1, h2, h3, h4, h5⟩ :=
    civil_core (t / 86400 + 719468) _ _ _ _ _ _ _ _ rfl rfl rfl rfl rfl rfl rfl rfl
  exact ⟨h1, h2, h3, h4, h5.trans (add_sub_cancel_right _ _)⟩

theorem day_of_year_bound (y m d : Int) (hm1 : 1 ≤ m) (hm12 : m ≤ 12) (hd1 : 1 ≤ d)
    (hd : d ≤ daysInMonth y m) :
    0 ≤ daysBeforeMonth y m + (d - 1) ∧
    daysBeforeMonth y m + (d - 1) ≤ 364 + (if isLeap y = true then 1 else 0) := by
  have hmc : m = 1 ∨ m = 2 ∨ m = 3 ∨ m = 4 ∨ m = 5 ∨ m = 6 ∨ m = 7 ∨ m = 8 ∨ m = 9 ∨
      m = 10 ∨ m = 11 ∨ m = 12 := by omega
  rcases hmc with h | h | h | h | h | h | h | h | h | h | h | h <;>
    (subst h
     norm_num [daysInMonth, daysBeforeMonth] at hd ⊢
     split_ifs at hd ⊢ <;> omega)

/-- A date whose day number lies between 1970-01-01 and 9999-12-31 has its
year between 1970 and 9999. -/
theorem year_bounds (y m d days : Int) (hm1 : 1 ≤ m) (hm12 : m ≤ 12) (hd1 : 1 ≤ d)
    (hd : d ≤ daysInMonth y m)
    (hdays : daysBeforeYear y + daysBeforeMonth y m + (d - 1) = days)
    (h0 : 0 ≤ days) (h1 : days < 2932897) : 1970 ≤ y ∧ y ≤ 9999 := by
  obtain ⟨hb0, hb1⟩ := day_of_year_bound y m d hm1 hm12 hd1 hd
  have hl : (if isLeap y = true then (1 : Int) else 0) ≤ 1 := by split_ifs <;> omega
  constructor
  · by_contra hlt
    have hy : y ≤ 1969 := by omega
    by_cases h69 : y = 1969
    · subst h69
      have : isLeap 1969 = false := by decide
      simp only [this] at hb1
      unfold daysBeforeYear at hdays
      norm_num at hdays hb1
      omega
    · have hy2 : y ≤ 1968 := by omega
      unfold daysBeforeYear at hdays
      omega
  · by_contra hgt
    have hy : 10000 ≤ y := by omega
    unfold daysBeforeYear at hdays
    by_cases h10 : y = 10000
    · subst h10
      norm_num at hdays
      omega
    · have hy2 : 10001 ≤ y := by omega
      omega

theorem extraDigits_le (k : Nat) : ∀ fuel n : Nat, n < 10 ^ (k + 1) → extraDigits fuel n ≤ k := by
  induction k with
  | zero =>
    intro fuel n hn
    cases fuel with
    | zero => simp [extraDigits]
    | succ f =>
      have : n < 10 := by simpa using hn
      simp [extraDigits, this]
  | succ k ih =>
    intro fuel n hn
    cases fuel with
    | zero => simp [extraDigits]
    | succ f =>
      unfold extraDigits
      split_ifs with h
      · omega
      · have : n / 10 < 10 ^ (k + 1) := by
          rw [Nat.div_lt_iff_lt_mul (by norm_num)]
          calc n < 10 ^ (k + 1 + 1) := hn
            _ = 10 ^ (k + 1) * 10 := by ring
        have := ih f (n / 10) this
        omega

/-- A non-negative number with at most `w` digits is written in exactly `w`
digits. -/
theorem fmtInt_eq_padDigits (w : Nat) (i : Int) (hw : 1 ≤ w) (h0 : 0 ≤ i) (h1 : i < 10 ^ w) :
    fmtInt w i = padDigits w i.toNat := by
  have hn : i.natAbs = i.toNat := by omega
  have hlt : i.toNat < 10 ^ (w - 1 + 1) := by
    have hw' : w - 1 + 1 = w := by omega
    rw [hw']
    have : ((i.toNat : Nat) : Int) < ((10 ^ w : Nat) : Int) := by
      rw [Int.toNat_of_nonneg h0]
      exact_mod_cast h1
    exact_mod_cast this
  have he := extraDigits_le (w - 1) i.toNat i.toNat hlt
  have hmax : max w (extraDigits i.toNat i.toNat + 1) = w := by omega
  have hneg : ¬ (i < 0) := by omega
  simp [fmtInt, hn, hmax, hneg]

theorem padDigits_length (w n : Nat) : (padDigits w n).length = w := by
  induction w generalizing n with
  | zero => rfl
  | succ w ih => simp [padDigits, ih]

theorem digitChar_isDigit (n : Nat) : (digitChar n).isDigit = true := by
  have h : n % 10 < 10 := Nat.mod_lt _ (by norm_num)
  unfold digitChar
  interval_cases (n % 10) <;> decide

theorem padDigits_isDigit (w n : Nat) : ∀ c ∈ padDigits w n, c.isDigit = true := by
  induction w generalizing n with
  | zero => simp [padDigits]
  | succ w ih =>
    intro c hc
    simp only [padDigits, List.mem_append, List.mem_singleton] at hc
    rcases hc with hc | hc
    · exact ih _ c hc
    · rw [hc]; exact digitChar_isDigit n

end GmtimeLemmas

theorem strftime_fields (y m d hh mm ss : Int) (hy0 : 0 ≤ y) (hy1 : y ≤ 9999)
    (hm0 : 0 ≤ m) (hm1 : m ≤ 99) (hd0 : 0 ≤ d) (hd1 : d ≤ 99) (hh0 : 0 ≤ hh) (hh1 : hh ≤ 99)
    (hmm0 : 0 ≤ mm) (hmm1 : mm ≤ 99) (hss0 : 0 ≤ ss) (hss1 : ss ≤ 99) :
    strftime_FTZ { tm_sec := ss, tm_min := mm, tm_hour := hh, tm_mday := d, tm_mon := m - 1,
                   tm_year := y - 1900 } =
      String.mk (padDigits 4 y.toNat ++ ['-'] ++ padDigits 2 m.toNat ++ ['-'] ++
        padDigits 2 d.toNat ++ ['T'] ++ padDigits 2 hh.toNat ++ [':'] ++
        padDigits 2 mm.toNat ++ [':'] ++ padDigits 2 ss.toNat ++ ['Z']) := by
  simp only [strftime_FTZ, sub_add_cancel]
  rw [fmtInt_eq_padDigits 4 y (by norm_num) hy0 (by norm_num; omega),
    fmtInt_eq_padDigits 2 m (by norm_num) hm0 (by norm_num; omega),
    fmtInt_eq_padDigits 2 d (by norm_num) hd0 (by norm_num; omega),
    fmtInt_eq_padDigits 2 hh (by norm_num) hh0 (by norm_num; omega),
    fmtInt_eq_padDigits 2 mm (by norm_num) hmm0 (by norm_num; omega),
    fmtInt_eq_padDigits 2 ss (by norm_num) hss0 (by norm_num; omega)]

theorem strftime_length (y m d hh mm ss : Nat) :
    (String.mk (padDigits 4 y ++ ['-'] ++ padDigits 2 m ++ ['-'] ++
        padDigits 2 d ++ ['T'] ++ padDigits 2 hh ++ [':'] ++
        padDigits 2 mm ++ [':'] ++ padDigits 2 ss ++ ['Z'])).length = 20 := by
  simp [String.length, padDigits_length]

theorem strftime_epoch : strftime_FTZ (gmtime 0) = "1970-01-01T00:00:00Z" := by decide

/-- The text of `%FT%TZ` for a time in the years 1970 to 9999. -/
theorem gmtime_format (t : Int) (h0 : 0 ≤ t) (h1 : t < 253402300800) :
    ∃ Y M D hh mm ss : Nat,
      (1970 ≤ Y ∧ Y ≤ 9999 ∧ 1 ≤ M ∧ M ≤ 12 ∧ 1 ≤ D ∧ (D : Int) ≤ daysInMonth Y M ∧
        hh < 24 ∧ mm < 60 ∧ ss < 60) ∧
      civilSeconds Y M D hh mm ss = t ∧
      strftime_FTZ (gmtime t) =
        String.mk (padDigits 4 Y ++ ['-'] ++ padDigits 2 M ++ ['-'] ++ padDigits 2 D ++ ['T'] ++
          padDigits 2 hh ++ [':'] ++ padDigits 2 mm ++ [':'] ++ padDigits 2 ss ++ ['Z']) := by
  obtain ⟨y, m, d, hg, hm1, hm12, hd1, hd, hdays⟩ := gmtime_spec t
  rw [hg]
  clear hg
  have hdays0 : 0 ≤ t / 86400 := by omega
  have hdays1 : t / 86400 < 2932897 := by omega
  obtain ⟨hy0, hy1⟩ := year_bounds y m d (t / 86400) hm1 hm12 hd1 hd hdays hdays0 hdays1
  have hd31 : d ≤ 31 := by
    have : daysInMonth y m ≤ 31 := by unfold daysInMonth; split_ifs <;> omega
    omega
  have hyc : ((y.toNat : Nat) : Int) = y := Int.toNat_of_nonneg (by omega)
  have hmc : ((m.toNat : Nat) : Int) = m := Int.toNat_of_nonneg (by omega)
  have hdc : ((d.toNat : Nat) : Int) = d := Int.toNat_of_nonneg (by omega)
  have hhc : (((t % 86400 / 3600).toNat : Nat) : Int) = t % 86400 / 3600 :=
    Int.toNat_of_nonneg (by omega)
  have hmmc : (((t % 86400 / 60 % 60).toNat : Nat) : Int) = t % 86400 / 60 % 60 :=
    Int.toNat_of_nonneg (by omega)
  have hssc : (((t % 86400 % 60).toNat : Nat) : Int) = t % 86400 % 60 :=
    Int.toNat_of_nonneg (by omega)
  refine ⟨y.toNat, m.toNat, d.toNat, (t % 86400 / 3600).toNat, (t % 86400 / 60 % 60).toNat,
    (t % 86400 % 60).toNat, ?_, ?_, ?_⟩
  · rw [hyc, hmc, hdc]
    refine ⟨?_, ?_, ?_, ?_, ?_, hd, ?_, ?_, ?_⟩ <;> omega
  · unfold civilSeconds
    rw [hyc, hmc, hdc, hhc, hmmc, hssc, hdays]
    omega
  · exact strftime_fields y m d _ _ _ (by omega) (by omega) (by omega) (by omega) (by omega)
      (by omega) (by omega) (by omega) (by omega) (by omega) (by omega) (by omega)

/-! ## Rounding to single precision: bounds -/

section RoundingLemmas

theorem Fp.log2Aux_lt (f : Nat) : ∀ n : Nat, n < 2 ^ f → n < 2 ^ (Fp.log2Aux f n + 1) := by
  induction f with
  | zero =>
    intro n hn
    simp at hn
    subst hn
    simp [Fp.log2Aux]
  | succ f ih =>
    intro n hn
    unfold Fp.log2Aux
    by_cases h2 : n < 2
    · simp only [h2, if_true]
      omega
    · simp only [h2, if_false]
      have h1 : n / 2 < 2 ^ f := by
        rw [pow_succ] at hn
        omega
      have := ih (n / 2) h1
      rw [pow_succ] at this ⊢
      omega

theorem Fp.log2_lt (n : Nat) : n < 2 ^ (Fp.log2 n + 1) :=
  Fp.log2Aux_lt n n (Nat.lt_two_pow n)

theorem Fp.log2_le (n : Nat) (hn : 1 ≤ n) : 2 ^ Fp.log2 n ≤ n := Fp.log2Aux_le n n hn

theorem Fp.ilog2_le (n d : Nat) : Fp.ilog2 n d ≤ (Fp.log2 n : Int) - (Fp.log2 d : Int) := by
  unfold Fp.ilog2
  simp only
  split_ifs <;> omega

theorem Fp.pow2_eq_zpow (e : Int) : Fp.pow2 e = (2 : ℚ) ^ e := by
  unfold Fp.pow2
  split_ifs with h
  · conv_rhs => rw [← Int.toNat_of_nonneg h]
    rw [zpow_natCast]
  · have h' : 0 ≤ -e := by omega
    have : e = -((-e).toNat : Int) := by rw [Int.toNat_of_nonneg h']; ring
    conv_rhs => rw [this]
    rw [zpow_neg, zpow_natCast, one_div]

theorem Fp.floor_le (x : ℚ) : (Rat.floor x : ℚ) ≤ x := Rat.le_floor.mp le_rfl

theorem Fp.lt_floor_add_one (x : ℚ) : x < (Rat.floor x : ℚ) + 1 := by
  by_contra h
  push_neg at h
  have : (Rat.floor x + 1 : Int) ≤ Rat.floor x := Rat.le_floor.mpr (by push_cast; exact h)
  omega

theorem Fp.roundHalfEven_le (x : ℚ) (N : Int) (h : x ≤ N) : Fp.roundHalfEven x ≤ N := by
  have hf : (Rat.floor x : ℚ) ≤ x := Fp.floor_le x
  have hfN : Rat.floor x ≤ N := by exact_mod_cast hf.trans h
  unfold Fp.roundHalfEven
  simp only
  split_ifs with h1 h2 h3
  · exact hfN
  · by_contra hc
    have heq : Rat.floor x = N := by omega
    rw [heq] at h2
    linarith
  · exact hfN
  · by_contra hc
    have heq : Rat.floor x = N := by omega
    rw [heq] at h1
    have : x - (N : ℚ) ≤ 0 := by linarith
    linarith

theorem Fp.le_roundHalfEven (x : ℚ) (N : Int) (h : (N : ℚ) ≤ x) : N ≤ Fp.roundHalfEven x := by
  have hf : N ≤ Rat.floor x := Rat.le_floor.mpr h
  unfold Fp.roundHalfEven
  simp only
  split_ifs <;> omega

theorem Fp.roundHalfEven_mono (x y : ℚ) (h : x ≤ y) :
    Fp.roundHalfEven x ≤ Fp.roundHalfEven y := by
  by_cases hfl : Rat.floor x < Rat.floor y
  · have h1 : Fp.roundHalfEven x ≤ Rat.floor x + 1 := by
      apply Fp.roundHalfEven_le
      push_cast
      exact (Fp.lt_floor_add_one x).le
    have h2 : Rat.floor y ≤ Fp.roundHalfEven y := Fp.le_roundHalfEven y _ (Fp.floor_le y)
    omega
  · have hle : Rat.floor x ≤ Rat.floor y := Rat.le_floor.mpr ((Fp.floor_le x).trans h)
    have heq : Rat.floor x = Rat.floor y := by omega
    unfold Fp.roundHalfEven
    simp only
    rw [heq]
    split_ifs <;> first | omega | (exfalso; linarith)

theorem Fp.roundTo_eq (p : Nat) (emin emax : Int) (q : ℚ) (hq : 0 < q) :
    Fp.roundTo p emin emax q =
      if Fp.pow2 (emax + 1) ≤
          |(Fp.roundHalfEven (q / Fp.pow2 (max (Fp.ilog2 q.num.natAbs q.den) emin - (p - 1 : Nat))) : ℚ) *
            Fp.pow2 (max (Fp.ilog2 q.num.natAbs q.den) emin - (p - 1 : Nat))| then Fp.inf false
      else if (Fp.roundHalfEven (q / Fp.pow2 (max (Fp.ilog2 q.num.natAbs q.den) emin - (p - 1 : Nat))) : ℚ) *
            Fp.pow2 (max (Fp.ilog2 q.num.natAbs q.den) emin - (p - 1 : Nat)) = 0 then Fp.finite 0
      else Fp.finite ((Fp.roundHalfEven (q / Fp.pow2 (max (Fp.ilog2 q.num.natAbs q.den) emin - (p - 1 : Nat))) : ℚ) *
            Fp.pow2 (max (Fp.ilog2 q.num.natAbs q.den) emin - (p - 1 : Nat))) := by
  have hne : ¬ (q = 0) := ne_of_gt hq
  have hlt : ¬ (q < 0) := not_lt.mpr hq.le
  simp only [Fp.roundTo, hne, if_false, hlt, decide_False, Fp.zero, Bool.false_eq_true]

/-- Exponent of a positive rational that is at most `2 ^ 23`. -/
theorem Fp.ilog2_le_of_le (q : ℚ) (hq : 0 < q) (hB : q ≤ 2 ^ 23) :
    Fp.ilog2 q.num.natAbs q.den ≤ 23 := by
  have h1 := Fp.ilog2_le q.num.natAbs q.den
  have hnum : 0 < q.num := Rat.num_pos.mpr hq
  have hn1 : 1 ≤ q.num.natAbs := by omega
  have h2 := Fp.log2_le q.num.natAbs hn1
  have h3 := Fp.log2_lt q.den
  have hden : (0 : ℚ) < q.den := by exact_mod_cast q.den_pos
  have hle : (q.num : ℚ) ≤ 2 ^ 23 * q.den := by
    have hqd : (q.num : ℚ) / q.den ≤ 2 ^ 23 := by rw [Rat.num_div_den]; exact hB
    exact (div_le_iff₀ hden).mp hqd
  have hle' : q.num.natAbs ≤ 2 ^ 23 * q.den := by
    have h4 : (q.num : ℚ) = ((q.num.natAbs : Nat) : ℚ) := by
      rw [← Int.cast_natCast, Int.natAbs_of_nonneg hnum.le]
    rw [h4] at hle
    exact_mod_cast hle
  have h5 : 2 ^ Fp.log2 q.num.natAbs < 2 ^ (Fp.log2 q.den + 24) := by
    calc 2 ^ Fp.log2 q.num.natAbs ≤ q.num.natAbs := h2
      _ ≤ 2 ^ 23 * q.den := hle'
      _ < 2 ^ 23 * 2 ^ (Fp.log2 q.den + 1) := by
          apply Nat.mul_lt_mul_of_pos_left h3 (by positivity)
      _ = 2 ^ (Fp.log2 q.den + 24) := by rw [← pow_add]; congr 1; omega
  have h6 : Fp.log2 q.num.natAbs < Fp.log2 q.den + 24 :=
    (Nat.pow_lt_pow_iff_right (by norm_num)).mp h5
  omega

/-- Rounding to `float` of a positive rational that is at most the natural
number `B`, itself at most `2 ^ 23`: a finite value between zero and `B`. -/
theorem Fp.round32_le_nat (q : ℚ) (hq : 0 < q) (B : Nat) (hB : q ≤ B) (hB23 : B ≤ 2 ^ 23) :
    ∃ r : ℚ, Fp.round32 q = Fp.finite r ∧ 0 ≤ r ∧ r ≤ B := by
  have hB' : q ≤ 2 ^ 23 := hB.trans (by exact_mod_cast hB23)
  have hil := Fp.ilog2_le_of_le q hq hB'
  obtain ⟨e, he⟩ : ∃ e, e = max (Fp.ilog2 q.num.natAbs q.den) (-126) - ((24 - 1 : Nat) : Int) :=
    ⟨_, rfl⟩
  have he0 : e ≤ 0 := by omega
  have hup : 0 < Fp.pow2 e := Fp.pow2_pos e
  obtain ⟨k, hk⟩ : ∃ k : Nat, e = -(k : Int) := ⟨(-e).toNat, by omega⟩
  have hulp : Fp.pow2 e = 1 / 2 ^ k := by
    rw [Fp.pow2_eq_zpow, hk, zpow_neg, zpow_natCast, one_div]
  have hm1 : Fp.roundHalfEven (q / Fp.pow2 e) ≤ ((B * 2 ^ k : Nat) : Int) := by
    apply Fp.roundHalfEven_le
    rw [hulp]
    push_cast
    rw [div_div_eq_mul_div, div_one]
    exact mul_le_mul_of_nonneg_right hB (by positivity)
  have hm0 : 0 ≤ Fp.roundHalfEven (q / Fp.pow2 e) := by
    apply Fp.le_roundHalfEven
    push_cast
    exact (div_pos hq hup).le
  have hr0 : (0 : ℚ) ≤ (Fp.roundHalfEven (q / Fp.pow2 e) : ℚ) * Fp.pow2 e :=
    mul_nonneg (by exact_mod_cast hm0) hup.le
  have hr1 : (Fp.roundHalfEven (q / Fp.pow2 e) : ℚ) * Fp.pow2 e ≤ B := by
    have h1 : (Fp.roundHalfEven (q / Fp.pow2 e) : ℚ) ≤ (B : ℚ) * 2 ^ k := by
      exact_mod_cast hm1
    calc (Fp.roundHalfEven (q / Fp.pow2 e) : ℚ) * Fp.pow2 e
        ≤ ((B : ℚ) * 2 ^ k) * Fp.pow2 e := mul_le_mul_of_nonneg_right h1 hup.le
      _ = B := by rw [hulp]; field_simp
  have hbig : ¬ (Fp.pow2 (127 + 1) ≤
      |(Fp.roundHalfEven (q / Fp.pow2 e) : ℚ) * Fp.pow2 e|) := by
    have hp : Fp.pow2 (127 + 1) = 2 ^ 128 := by
      rw [Fp.pow2_eq_zpow]
      norm_num
    rw [abs_of_nonneg hr0, hp]
    have h23 : (B : ℚ) ≤ 2 ^ 23 := by exact_mod_cast hB23
    have h128 : (2 : ℚ) ^ 23 < 2 ^ 128 := by norm_num
    linarith
  unfold Fp.round32
  rw [Fp.roundTo_eq 24 (-126) 127 q hq, ← he]
  simp only [hbig, if_false]
  split_ifs with h0
  · exact ⟨0, rfl, le_rfl, by positivity⟩
  · exact ⟨_, rfl, hr0, hr1⟩

theorem Fp.ilog2_one (n : Nat) (hn : 1 ≤ n) : Fp.ilog2 n 1 = (Fp.log2 n : Int) := by
  have hb : Fp.log2 1 = 0 := rfl
  have h2 := Fp.log2_le n hn
  unfold Fp.ilog2
  simp only [hb]
  have h1 : Fp.log2 n ≥ 0 := Nat.zero_le _
  have h3 : n ≥ 1 * 2 ^ (Fp.log2 n - 0) := by simpa using h2
  simp only [h1, h3, if_true]
  simp

/-- The `float` nearest to a positive integer below `2 ^ 127`: the integer
rounded to a multiple of the unit in the last place of its binade, a value
inside the closed binade. -/
theorem Fp.ofInt_val (n : Nat) (hn : 1 ≤ n) (hn1 : n < 2 ^ 127) :
    Fp.ofInt (n : Int) =
      Fp.finite ((Fp.roundHalfEven ((n : ℚ) / Fp.pow2 ((Fp.log2 n : Int) - 23)) : ℚ) *
        Fp.pow2 ((Fp.log2 n : Int) - 23)) ∧
    (2 : ℚ) ^ Fp.log2 n ≤ (Fp.roundHalfEven ((n : ℚ) / Fp.pow2 ((Fp.log2 n : Int) - 23)) : ℚ) *
        Fp.pow2 ((Fp.log2 n : Int) - 23) ∧
    (Fp.roundHalfEven ((n : ℚ) / Fp.pow2 ((Fp.log2 n : Int) - 23)) : ℚ) *
        Fp.pow2 ((Fp.log2 n : Int) - 23) ≤ (2 : ℚ) ^ (Fp.log2 n + 1) := by
  have hq : ((n : Int) : ℚ) = (n : ℚ) := by norm_cast
  have hn0 : (0 : ℚ) < n := by exact_mod_cast hn
  have h2 := Fp.log2_le n hn
  have h3 := Fp.log2_lt n
  have ha : Fp.log2 n < 127 := by
    have : 2 ^ Fp.log2 n < 2 ^ 127 := lt_of_le_of_lt h2 hn1
    exact (Nat.pow_lt_pow_iff_right (by norm_num)).mp this
  obtain ⟨u, hu⟩ : ∃ u, u = Fp.pow2 ((Fp.log2 n : Int) - 23) := ⟨_, rfl⟩
  have hup : 0 < u := by rw [hu]; exact Fp.pow2_pos _
  have hlo : (2 : ℚ) ^ Fp.log2 n = 2 ^ 23 * u := by
    rw [hu, Fp.pow2_eq_zpow, ← zpow_natCast, ← zpow_natCast (2 : ℚ) 23, ← zpow_add₀ (by norm_num)]
    congr 1
    push_cast
    ring
  have hhi : (2 : ℚ) ^ (Fp.log2 n + 1) = 2 ^ 24 * u := by
    rw [pow_succ, hlo]
    ring
  have hm0 : ((2 ^ 23 : Nat) : Int) ≤ Fp.roundHalfEven ((n : ℚ) / u) := by
    apply Fp.le_roundHalfEven
    rw [le_div_iff₀ hup]
    have h2q : (2 : ℚ) ^ Fp.log2 n ≤ n := by exact_mod_cast h2
    rw [hlo] at h2q
    push_cast
    exact h2q
  have hm1 : Fp.roundHalfEven ((n : ℚ) / u) ≤ ((2 ^ 24 : Nat) : Int) := by
    apply Fp.roundHalfEven_le
    rw [div_le_iff₀ hup]
    have h3q : (n : ℚ) ≤ (2 : ℚ) ^ (Fp.log2 n + 1) := by exact_mod_cast h3.le
    rw [hhi] at h3q
    push_cast
    exact h3q
  have hr0 : (2 : ℚ) ^ Fp.log2 n ≤ (Fp.roundHalfEven ((n : ℚ) / u) : ℚ) * u := by
    rw [hlo]
    apply mul_le_mul_of_nonneg_right _ hup.le
    exact_mod_cast hm0
  have hr1 : (Fp.roundHalfEven ((n : ℚ) / u) : ℚ) * u ≤ (2 : ℚ) ^ (Fp.log2 n + 1) := by
    rw [hhi]
    apply mul_le_mul_of_nonneg_right _ hup.le
    exact_mod_cast hm1
  have hrpos : (0 : ℚ) < (Fp.roundHalfEven ((n : ℚ) / u) : ℚ) * u :=
    lt_of_lt_of_le (by positivity) hr0
  refine ⟨?_, hu ▸ hr0, hu ▸ hr1⟩
  have he : max (Fp.ilog2 (n : ℚ).num.natAbs (n : ℚ).den) (-126) - ((24 - 1 : Nat) : Int) =
      (Fp.log2 n : Int) - 23 := by
    rw [Rat.num_natCast, Rat.den_natCast, Int.natAbs_ofNat, Fp.ilog2_one n hn]
    have : max (Fp.log2 n : Int) (-126) = Fp.log2 n := by omega
    rw [this]
    norm_num
  have hbig : ¬ (Fp.pow2 (127 + 1) ≤ |(Fp.roundHalfEven ((n : ℚ) / u) : ℚ) * u|) := by
    have hp : Fp.pow2 (127 + 1) = 2 ^ 128 := by
      rw [Fp.pow2_eq_zpow]
      norm_num
    rw [abs_of_pos hrpos, hp]
    have h128 : (2 : ℚ) ^ (Fp.log2 n + 1) < 2 ^ 128 :=
      pow_lt_pow_right₀ (by norm_num) (by omega)
    linarith
  unfold Fp.ofInt Fp.round32
  rw [hq, Fp.roundTo_eq 24 (-126) 127 (n : ℚ) hn0, he, ← hu]
  simp only [hbig, if_false, ne_of_gt hrpos]

/-- Conversion of positive integers to `float` is monotone. -/
theorem Fp.ofInt_mono (c t : Nat) (hc : 1 ≤ c) (hct : c ≤ t) (ht : t < 2 ^ 127) :
    ∃ A B : ℚ, Fp.ofInt (c : Int) = Fp.finite A ∧ Fp.ofInt (t : Int) = Fp.finite B ∧
      0 < A ∧ A ≤ B := by
  obtain ⟨hA, hA0, hA1⟩ := Fp.ofInt_val c hc (lt_of_le_of_lt hct ht)
  obtain ⟨hB, hB0, hB1⟩ := Fp.ofInt_val t (le_trans hc hct) ht
  refine ⟨_, _, hA, hB, lt_of_lt_of_le (by positivity) hA0, ?_⟩
  rcases Nat.lt_trichotomy (Fp.log2 c) (Fp.log2 t) with hlt | heq | hgt
  · calc _ ≤ (2 : ℚ) ^ (Fp.log2 c + 1) := hA1
      _ ≤ (2 : ℚ) ^ Fp.log2 t := pow_le_pow_right₀ (by norm_num) hlt
      _ ≤ _ := hB0
  · rw [heq]
    apply mul_le_mul_of_nonneg_right _ (Fp.pow2_pos _).le
    have : Fp.roundHalfEven ((c : ℚ) / Fp.pow2 ((Fp.log2 t : Int) - 23)) ≤
        Fp.roundHalfEven ((t : ℚ) / Fp.pow2 ((Fp.log2 t : Int) - 23)) := by
      apply Fp.roundHalfEven_mono
      apply div_le_div_of_nonneg_right _ (Fp.pow2_pos _).le
      exact_mod_cast hct
    exact_mod_cast this
  · exfalso
    have h1 := Fp.log2_le c hc
    have h2 := Fp.log2_lt t
    have h3 : 2 ^ (Fp.log2 t + 1) ≤ 2 ^ Fp.log2 c := Nat.pow_le_pow_right (by norm_num) hgt
    omega

/-- The single-precision evaluation of `c / t * 100` for `0 ≤ c ≤ t`,
`0 < t`: a finite number between 0 and 100. -/
theorem Fp.percent_bounds (c t : Nat) (ht1 : 1 ≤ t) (hct : c ≤ t) (ht127 : t < 2 ^ 127) :
    ∃ r : ℚ, Fp.mul32 (Fp.div32 (Fp.ofInt (c : Int)) (Fp.ofInt (t : Int))) (Fp.finite 100) =
      Fp.finite r ∧ 0 ≤ r ∧ r ≤ 100 := by
  by_cases hc0 : c = 0
  · obtain ⟨A, B, -, hB, hA0, hAB⟩ := Fp.ofInt_mono 1 t le_rfl ht1 ht127
    have hB0 : 0 < B := lt_of_lt_of_le hA0 hAB
    have hBn : ¬ (B < 0) := not_lt.mpr hB0.le
    have hB1 : ¬ (B = 0) := ne_of_gt hB0
    rw [hc0, hB]
    refine ⟨0, ?_, le_rfl, by norm_num⟩
    have h0 : Fp.ofInt ((0 : Nat) : Int) = Fp.finite 0 := by
      simp [Fp.ofInt, Fp.round32, Fp.roundTo]
    rw [h0]
    simp [Fp.div32, Fp.mul32, Fp.isZero, Fp.sign, Fp.zero, hBn, hB1]
  · obtain ⟨A, B, hA, hB, hA0, hAB⟩ := Fp.ofInt_mono c t (by omega) hct ht127
    have hB0 : 0 < B := lt_of_lt_of_le hA0 hAB
    rw [hA, hB]
    have hq0 : 0 < A / B := div_pos hA0 hB0
    have hq1 : A / B ≤ ((1 : Nat) : ℚ) := by
      rw [Nat.cast_one, div_le_one hB0]
      exact hAB
    obtain ⟨r1, hr1, hr10, hr11⟩ := Fp.round32_le_nat (A / B) hq0 1 hq1 (by norm_num)
    have hdiv : Fp.div32 (Fp.finite A) (Fp.finite B) = Fp.finite r1 := by
      simp [Fp.div32, Fp.isZero, ne_of_gt hA0, ne_of_gt hB0, Fp.toRat, hr1]
    rw [hdiv]
    by_cases hr0 : r1 = 0
    · refine ⟨0, ?_, le_rfl, by norm_num⟩
      simp [hr0, Fp.mul32, Fp.isZero, Fp.sign, Fp.zero]
    · have hr1pos : 0 < r1 := lt_of_le_of_ne hr10 (Ne.symm hr0)
      have hp0 : 0 < r1 * 100 := by positivity
      have hp1 : r1 * 100 ≤ ((100 : Nat) : ℚ) := by
        push_cast
        have : r1 ≤ 1 := by exact_mod_cast hr11
        linarith
      obtain ⟨r2, hr2, hr20, hr21⟩ := Fp.round32_le_nat (r1 * 100) hp0 100 hp1 (by norm_num)
      refine ⟨r2, ?_, hr20, by exact_mod_cast hr21⟩
      simp [Fp.mul32, Fp.isZero, hr0, Fp.toRat, hr2]

/-- For a positive total and a hit count that does not exceed it, the
percentage is a finite number between 0 and 100. -/
theorem Dashboard.perc_bounds (sa : Sample) (total : Int) (h0 : 0 < total)
    (h1 : (sa.samp : Int) ≤ total) (h2 : total < 2 ^ 31) :
    ∃ r : ℚ, Dashboard.perc sa total = Fp.finite r ∧ 0 ≤ r ∧ r ≤ 100 := by
  obtain ⟨t, ht⟩ : ∃ t : Nat, total = (t : Int) := ⟨total.toNat, by omega⟩
  subst ht
  have ht127 : t < 2 ^ 127 := by
    have : t < 2 ^ 31 := by exact_mod_cast h2
    exact lt_trans this (by norm_num)
  exact Fp.percent_bounds sa.samp t (by omega) (by omega) ht127

end RoundingLemmas

/-- The two percentages of `Env.overcount`. -/
theorem Dashboard.perc_overcount :
    Dashboard.perc { samp := 1, addr := 4096, name := "main" } 3 =
      Fp.finite (4369067 / 131072) ∧
    Dashboard.perc { samp := 5, addr := 8192, name := "idle" } 3 =
      Fp.finite (5461333 / 32768) := by
  decide!

/-! ## The claims -/

/-- C1, the code at values of 4 GiB and more: `serialize_memmap` emits one
JSON array with one object per region, in iteration order, with the keys
`name, addr_start, addr_end, in_use, description` in that order and the
region's name and description; `addr_start`, `addr_end` and `in_use` pass
through the 32-bit `Writer::Uint` and are emitted reduced modulo `2 ^ 32`.
Whenever the k-th region has one of the three at or above `2 ^ 32`, the
k-th emitted object is not the object holding exactly the region's values;
a region with all three below `2 ^ 32` is emitted exactly. -/
theorem memmap_narrowing (env : Env) (k : Nat) (i : Nat × MemoryRegion)
    (hk : env.memory_map[k]? = some i)
    (h : 2 ^ 32 ≤ i.2.addr_start ∨ 2 ^ 32 ≤ i.2.addr_end ∨ 2 ^ 32 ≤ i.2.in_use) :
    ∃ elems : List JVal,
      fragment (Dashboard.serialize_memmap env) = (JVal.arr elems).toks ∧
      elems.length = env.memory_map.length ∧
      (∀ j : Nat, elems[j]? = (env.memory_map[j]?).map fun i =>
        JVal.obj [("name", JVal.str i.2.name),
                  ("addr_start", JVal.int ((i.2.addr_start % 2 ^ 32 : Nat) : Int)),
                  ("addr_end", JVal.int ((i.2.addr_end % 2 ^ 32 : Nat) : Int)),
                  ("in_use", JVal.int ((i.2.in_use % 2 ^ 32 : Nat) : Int)),
                  ("description", JVal.str i.2.description)]) ∧
      elems[k]? ≠ some (JVal.obj [("name", JVal.str i.2.name),
                  ("addr_start", JVal.int (i.2.addr_start : Int)),
                  ("addr_end", JVal.int (i.2.addr_end : Int)),
                  ("in_use", JVal.int (i.2.in_use : Int)),
                  ("description", JVal.str i.2.description)]) ∧
      (∀ r : MemoryRegion, r.addr_start < 2 ^ 32 → r.addr_end < 2 ^ 32 → r.in_use < 2 ^ 32 →
        regionObj (fun n => (toUnsigned n : Nat)) r = regionObj (fun n => (n : Int)) r) := by
  refine ⟨env.memory_map.map fun i => regionObj (fun n => (toUnsigned n : Nat)) i.2,
    (emits_memmap env).fragment_eq, by simp, ?_, ?_, ?_⟩
  · intro j
    simp [List.getElem?_map, regionObj, toUnsigned]
  · rw [List.getElem?_map, hk]
    simp only [Option.map_some', regionObj, toUnsigned, ne_eq, Option.some.injEq,
      JVal.obj.injEq, List.cons.injEq, Prod.mk.injEq, JVal.int.injEq, Nat.cast_inj, true_and,
      and_true]
    intro heq
    obtain ⟨h1, h2, h3⟩ := heq
    have p : (2 : Nat) ^ 32 = 4294967296 := by norm_num
    rw [p] at h h1 h2 h3
    omega
  · intro r h1 h2 h3
    simp only [regionObj, toUnsigned, Nat.mod_eq_of_lt h1, Nat.mod_eq_of_lt h2,
      Nat.mod_eq_of_lt h3]

/-- Witness for C1: `Env.highRegion`, whose only region starts at 4 GiB; its
`addr_start` 4294967296 is emitted as 0 and its `addr_end` 4294971392 as
4096. -/
theorem memmap_narrowing_witness :
    Env.highRegion.memory_map[0]? =
      some (4294967296, { name := "high", addr_start := 4294967296, addr_end := 4294971392,
                          in_use := 16, description := "above 4 GiB" }) ∧
    (2 ^ 32 ≤ 4294967296 ∨ 2 ^ 32 ≤ 4294971392 ∨ 2 ^ 32 ≤ 16) ∧
    fragment (Dashboard.serialize_memmap Env.highRegion) =
      [Tok.lbrack,
        Tok.lbrace, Tok.str "name", Tok.colon, Tok.str "high", Tok.comma,
          Tok.str "addr_start", Tok.colon, Tok.int 0, Tok.comma,
          Tok.str "addr_end", Tok.colon, Tok.int 4096, Tok.comma,
          Tok.str "in_use", Tok.colon, Tok.int 16, Tok.comma,
          Tok.str "description", Tok.colon, Tok.str "above 4 GiB", Tok.rbrace,
        Tok.rbrack] ∧
    ∃ elems : List JVal,
      fragment (Dashboard.serialize_memmap Env.highRegion) = (JVal.arr elems).toks ∧
      elems.length = Env.highRegion.memory_map.length ∧
      (∀ j : Nat, elems[j]? = (Env.highRegion.memory_map[j]?).map fun i =>
        JVal.obj [("name", JVal.str i.2.name),
                  ("addr_start", JVal.int ((i.2.addr_start % 2 ^ 32 : Nat) : Int)),
                  ("addr_end", JVal.int ((i.2.addr_end % 2 ^ 32 : Nat) : Int)),
                  ("in_use", JVal.int ((i.2.in_use % 2 ^ 32 : Nat) : Int)),
                  ("description", JVal.str i.2.description)]) ∧
      elems[0]? ≠ some (JVal.obj [("name", JVal.str "high"),
                  ("addr_start", JVal.int 4294967296),
                  ("addr_end", JVal.int 4294971392),
                  ("in_use", JVal.int 16),
                  ("description", JVal.str "above 4 GiB")]) ∧
      (∀ r : MemoryRegion, r.addr_start < 2 ^ 32 → r.addr_end < 2 ^ 32 → r.in_use < 2 ^ 32 →
        regionObj (fun n => (toUnsigned n : Nat)) r = regionObj (fun n => (n : Int)) r) :=
  ⟨rfl, Or.inl (by decide), by decide,
    memmap_narrowing Env.highRegion 0
      (4294967296, { name := "high", addr_start := 4294967296, addr_end := 4294971392,
                     in_use := 16, description := "above 4 GiB" })
      rfl (Or.inl (by decide))⟩

/-- C2: for every statistics registry whose live range `[begin, last_used)`
lies within its slots, whose counter at position `i` has index `i` and whose
live counters have one of the three types, `serialize_statman` emits a JSON
array of `last_used` objects in which, for every integer `j`, exactly one
object has `index == j` when `0 ≤ j < last_used` and none otherwise; the
object at position `i` holds the counter's name, value, type label and
index, its value being an integer number for `UINT64` and `UINT32` and a
floating point number for `FLOAT`. -/
theorem statman_index_kind (env : Env)
    (hlu : env.statman.last_used ≤ env.statman.stats.length)
    (hidx : ∀ (i : Nat) (s : Stat), i < env.statman.last_used →
      env.statman.stats[i]? = some s → s.index = i)
    (hty : ∀ s ∈ env.statman.live, s.type.known = true) :
    ∃ elems : List JVal,
      fragment (Dashboard.serialize_statman env) = (JVal.arr elems).toks ∧
      elems.length = env.statman.last_used ∧
      (∀ j : Int, countIndex j elems = if 0 ≤ j ∧ j < env.statman.last_used then 1 else 0) ∧
      (∀ (i : Nat) (s : Stat), i < env.statman.last_used → env.statman.stats[i]? = some s →
        elems[i]? = some (JVal.obj [("name", JVal.str s.name), ("value", s.valueJ),
          ("type", JVal.str s.type.label), ("index", JVal.int i)]) ∧
        (s.type = stat_type.UINT64 ∨ s.type = stat_type.UINT32 → s.valueJ.isInt = true) ∧
        (s.type = stat_type.FLOAT → s.valueJ.isDbl = true)) := by
  have hlen : env.statman.live.length = env.statman.last_used := by
    simp [Statman.live, List.length_take, hlu]
  have hget : ∀ i : Nat, i < env.statman.last_used →
      env.statman.live[i]? = env.statman.stats[i]? := by
    intro i hi
    simp [Statman.live, List.getElem?_take, hi]
  have hpos : ∀ (i : Nat) (s : Stat), env.statman.live[i]? = some s → s.index = i := by
    intro i s hs
    have hi : i < env.statman.last_used := by
      by_contra hge
      rw [List.getElem?_eq_none (by omega)] at hs
      cases hs
    exact hidx i s hi (by rw [← hget i hi]; exact hs)
  refine ⟨env.statman.live.map statObj, (emits_statman env hty).fragment_eq, by simp [hlen],
    ?_, ?_⟩
  · intro j
    rw [countIndex_statObj, countP_index_positions _ hpos, hlen]
  · intro i s hi hs
    refine ⟨?_, ?_, ?_⟩
    · rw [List.getElem?_map, hget i hi, hs]
      simp [statObj, hidx i s hi hs]
    · rintro (h | h) <;> simp [Stat.valueJ, h, JVal.isInt]
    · intro h
      simp [Stat.valueJ, h, JVal.isDbl]

/-- Witness for C2: the registry of `Env.busy`, two live counters (a
`UINT64` and a `FLOAT`) followed by an unused slot. -/
theorem statman_index_kind_witness :
    (Env.busy.statman.last_used ≤ Env.busy.statman.stats.length ∧
      (∀ s ∈ Env.busy.statman.live, s.type.known = true)) ∧
    ∃ elems : List JVal,
      fragment (Dashboard.serialize_statman Env.busy) = (JVal.arr elems).toks ∧
      elems.length = Env.busy.statman.last_used ∧
      (∀ j : Int, countIndex j elems =
        if 0 ≤ j ∧ j < Env.busy.statman.last_used then 1 else 0) ∧
      (∀ (i : Nat) (s : Stat), i < Env.busy.statman.last_used →
        Env.busy.statman.stats[i]? = some s →
        elems[i]? = some (JVal.obj [("name", JVal.str s.name), ("value", s.valueJ),
          ("type", JVal.str s.type.label), ("index", JVal.int i)]) ∧
        (s.type = stat_type.UINT64 ∨ s.type = stat_type.UINT32 → s.valueJ.isInt = true) ∧
        (s.type = stat_type.FLOAT → s.valueJ.isDbl = true)) :=
  ⟨⟨by decide, by decide⟩,
    statman_index_kind Env.busy (by decide)
      (by
        intro i s hi hs
        have hi2 : i < 2 := hi
        interval_cases i
        · have : s = Env.busy.statman.stats[0] := by
            simpa [Env.busy] using hs.symm
          subst this; rfl
        · have : s = Env.busy.statman.stats[1] := by
            simpa [Env.busy] using hs.symm
          subst this; rfl)
      (by decide)⟩

/-- C3, the code at a total of zero: whenever `samples_total()` is zero,
`serialize_stack_sampler` emits for every sample a `percent` that is not a
number, NaN for a sample without hits and `+inf` for any other sample; it
is never zero and never finite. -/
theorem stack_sampler_zero_total (d : Dashboard) (env : Env) (h0 : env.samples_total = 0) :
    fragment (d.serialize_stack_sampler env) =
      (JVal.arr ((env.results d.stack_samples).map fun sa =>
        JVal.obj [("address", JVal.int (toUnsigned sa.addr)), ("name", JVal.str sa.name),
          ("total", JVal.int sa.samp),
          ("percent", JVal.dbl (if sa.samp = 0 then Fp.nan else Fp.inf false))])).toks ∧
    ∀ sa : Sample, Dashboard.perc sa env.samples_total ≠ Fp.finite 0 ∧
      (Dashboard.perc sa env.samples_total).isFinite = false := by
  constructor
  · rw [(emits_stack_sampler d env).fragment_eq, h0]
    congr 2
    apply List.map_congr_left
    intro sa _
    simp only [sampleObj, Dashboard.perc_zero_total]
  · intro sa
    rw [h0, Dashboard.perc_zero_total]
    split_ifs <;> simp [Fp.isFinite]

/-- Witness for C3: `Env.zeroTotal`, where the sampler returns a sample
with three hits and one with none while the total reads zero. -/
theorem stack_sampler_zero_total_witness :
    Env.zeroTotal.samples_total = 0 ∧
    fragment (Dashboard.new.serialize_stack_sampler Env.zeroTotal) =
      (JVal.arr ((Env.zeroTotal.results Dashboard.new.stack_samples).map fun sa =>
        JVal.obj [("address", JVal.int (toUnsigned sa.addr)), ("name", JVal.str sa.name),
          ("total", JVal.int sa.samp),
          ("percent", JVal.dbl (if sa.samp = 0 then Fp.nan else Fp.inf false))])).toks ∧
    ∀ sa : Sample, Dashboard.perc sa Env.zeroTotal.samples_total ≠ Fp.finite 0 ∧
      (Dashboard.perc sa Env.zeroTotal.samples_total).isFinite = false :=
  ⟨rfl, stack_sampler_zero_total Dashboard.new Env.zeroTotal rfl⟩

/-- C4: for every state of the data sources, `serve_all` on an idle
dashboard sends exactly one body, the JSON object with the four keys
`memmap, statman, stack_sampler, status` in that order, the value under
each key being the text that `serialize_memmap`, `serialize_statman`,
`serialize_stack_sampler` and `serialize_status` emit on their own for that
same state. -/
theorem serve_all_document (env : Env) (d : Dashboard) (res : Response)
    (hidle : d.writer_ = Writer.fresh) :
    (d.serve_all env res).2 = res ++
      [objToks [("memmap", fragment (Dashboard.serialize_memmap env)),
                ("statman", fragment (Dashboard.serialize_statman env)),
                ("stack_sampler", fragment (d.serialize_stack_sampler env)),
                ("status", fragment (Dashboard.serialize_status env))]] :=
  Dashboard.serve_all_idle env d res hidle

/-- Witness for C4: the freshly constructed dashboard serving `Env.busy`. -/
theorem serve_all_document_witness :
    Dashboard.new.writer_ = Writer.fresh ∧
    (Dashboard.new.serve_all Env.busy []).2 = [] ++
      [objToks [("memmap", fragment (Dashboard.serialize_memmap Env.busy)),
                ("statman", fragment (Dashboard.serialize_statman Env.busy)),
                ("stack_sampler", fragment (Dashboard.new.serialize_stack_sampler Env.busy)),
                ("status", fragment (Dashboard.serialize_status Env.busy))]] :=
  ⟨rfl, serve_all_document Env.busy Dashboard.new [] rfl⟩

/-- C5: in every dashboard state reached from construction, two consecutive
`serve_memmap` calls, the first against the state `env1` and the second
against `env2`, send two bodies: the text of `serialize_memmap` for `env1`
alone, then the text of `serialize_memmap` for `env2` alone, which is the
body a freshly constructed dashboard sends for `env2`.  With `env2 = env1`
the two bodies are identical. -/
theorem serve_memmap_twice (reqs : List (Env × Request)) (env1 env2 : Env) :
    (((Dashboard.new.serveMany reqs).serve_memmap env1 []).1.serve_memmap env2
        ((Dashboard.new.serveMany reqs).serve_memmap env1 []).2).2 =
      [fragment (Dashboard.serialize_memmap env1), fragment (Dashboard.serialize_memmap env2)] ∧
    (Dashboard.new.serve_memmap env2 []).2 = [fragment (Dashboard.serialize_memmap env2)] ∧
    (((Dashboard.new.serveMany reqs).serve_memmap env1 []).1.serve_memmap env1
        ((Dashboard.new.serveMany reqs).serve_memmap env1 []).2).2 =
      [fragment (Dashboard.serialize_memmap env1), fragment (Dashboard.serialize_memmap env1)] := by
  obtain ⟨hw, _⟩ := Dashboard.serveMany_new reqs
  simp only [Dashboard.serve_memmap, Dashboard.send_buffer, Dashboard.buffer_,
    Dashboard.reset_writer, Writer.Reset, fragment, hw]
  exact ⟨rfl, rfl, rfl⟩

/-- C6: in every dashboard state reached from construction by any sequence
of requests, the body sent by `serve_memmap`, `serve_statman` and
`serve_stack_sampler` is exactly the text the respective serializer emits on
its own, and that text is an opening bracket, the comma separated texts of
the elements, and a closing bracket, with nothing before or after. -/
theorem single_resource_bodies (reqs : List (Env × Request)) (env : Env) :
    (Dashboard.new.serveMany reqs).body env Request.memmap =
        fragment (Dashboard.serialize_memmap env) ∧
    (Dashboard.new.serveMany reqs).body env Request.statman =
        fragment (Dashboard.serialize_statman env) ∧
    (Dashboard.new.serveMany reqs).body env Request.stack_sampler =
        fragment ((Dashboard.new.serveMany reqs).serialize_stack_sampler env) ∧
    fragment (Dashboard.serialize_memmap env) =
        (JVal.arr (env.memory_map.map fun i =>
          regionObj (fun n => (toUnsigned n : Nat)) i.2)).toks ∧
    fragment (Dashboard.serialize_statman env) = arrToks (env.statman.live.map statText) ∧
    fragment ((Dashboard.new.serveMany reqs).serialize_stack_sampler env) =
        (JVal.arr ((env.results 12).map (sampleObj env.samples_total))).toks := by
  obtain ⟨hw, hn⟩ := Dashboard.serveMany_new reqs
  refine ⟨Dashboard.body_memmap env _ hw, Dashboard.body_statman env _ hw,
    Dashboard.body_stack_sampler env _ hw, (emits_memmap env).fragment_eq,
    (emits_statman_text env).fragment_eq, ?_⟩
  rw [(emits_stack_sampler _ env).fragment_eq, hn]

/-- C7, the code at a counter of unknown type: whenever the live range
holds a counter whose type is none of the three enumerators, the calls of
`serialize_statman` are not well nested, and the text emitted for such a
counter is `statText`: the key `value` is followed by the string `type`, not
by a value. -/
theorem statman_unknown_type_ill_nested (env : Env)
    (h : ∃ s ∈ env.statman.live, s.type.known = false) :
    wellNested (Dashboard.serialize_statman env) = false ∧
    fragment (Dashboard.serialize_statman env) = arrToks (env.statman.live.map statText) := by
  refine ⟨?_, (emits_statman_text env).fragment_eq⟩
  have h1 := nestRun_statman_entries_unknown [Ctx.done] env.statman.live h
  simp [wellNested, Dashboard.serialize_statman, nestRun, nestStep, Ctx.afterValue,
    nestRun_append, h1]

/-- Witness for C7: the registry of `Env.unknownType`; its text is
`[{"name":"x","value":"type","":"index",0}]`. -/
theorem statman_unknown_type_ill_nested_witness :
    (∃ s ∈ Env.unknownType.statman.live, s.type.known = false) ∧
    wellNested (Dashboard.serialize_statman Env.unknownType) = false ∧
    fragment (Dashboard.serialize_statman Env.unknownType) =
      arrToks (Env.unknownType.statman.live.map statText) :=
  ⟨by decide, statman_unknown_type_ill_nested Env.unknownType (by decide)⟩

/-- C8, as stated, fails: with nothing registered, the text emitted by
`serialize_status` is not the object whose keys are `version, service_name,
uptime, heap_usage, cpu_frequency, current_time`. -/
theorem status_field_names_counterexample :
    fragment (Dashboard.serialize_status Env.quiet) ≠
      (statusObj ["version", "service_name", "uptime", "heap_usage", "cpu_frequency",
        "current_time"] Env.quiet).toks := by
  decide

/-- C8, amended: for every status state, `serialize_status` emits a single
JSON object whose keys are, in order, `version, service, uptime,
heap_usage, cpu_freq, current_time`, holding the version and the service
name as strings, the uptime and the heap usage as integer numbers (the
latter non-negative), the CPU frequency as a floating point number and the
formatted current time as a string. -/
theorem status_object (env : Env) :
    fragment (Dashboard.serialize_status env) =
      (JVal.obj [("version", JVal.str env.version), ("service", JVal.str env.service_name),
        ("uptime", JVal.int env.uptime), ("heap_usage", JVal.int (env.heap_usage : Nat)),
        ("cpu_freq", JVal.dbl env.cpu_freq),
        ("current_time", JVal.str (strftime_FTZ (gmtime env.rtc_now)))]).toks :=
  (emits_status env).fragment_eq

/-- C9: for every state of the data sources in which the live counters
have one of the three types, the calls issued by each of the four
serializers are well nested and form exactly one value: they leave a fresh
writer complete, the first three start with `StartArray` and end with
`EndArray`, the status starts with `StartObject` and ends with `EndObject`. -/
theorem serializers_well_nested (env : Env) (d : Dashboard)
    (hty : ∀ s ∈ env.statman.live, s.type.known = true) :
    (wellNested (Dashboard.serialize_memmap env) = true ∧
      (Writer.fresh.run (Dashboard.serialize_memmap env)).IsComplete = true ∧
      (Dashboard.serialize_memmap env).head? = some Call.StartArray ∧
      (Dashboard.serialize_memmap env).getLast? = some Call.EndArray) ∧
    (wellNested (Dashboard.serialize_statman env) = true ∧
      (Writer.fresh.run (Dashboard.serialize_statman env)).IsComplete = true ∧
      (Dashboard.serialize_statman env).head? = some Call.StartArray ∧
      (Dashboard.serialize_statman env).getLast? = some Call.EndArray) ∧
    (wellNested (d.serialize_stack_sampler env) = true ∧
      (Writer.fresh.run (d.serialize_stack_sampler env)).IsComplete = true ∧
      (d.serialize_stack_sampler env).head? = some Call.StartArray ∧
      (d.serialize_stack_sampler env).getLast? = some Call.EndArray) ∧
    (wellNested (Dashboard.serialize_status env) = true ∧
      (Writer.fresh.run (Dashboard.serialize_status env)).IsComplete = true ∧
      (Dashboard.serialize_status env).head? = some Call.StartObject ∧
      (Dashboard.serialize_status env).getLast? = some Call.EndObject) := by
  refine ⟨⟨?_, ?_, ?_, ?_⟩, ⟨?_, ?_, ?_, ?_⟩, ⟨?_, ?_, ?_, ?_⟩, ⟨?_, ?_, ?_, ?_⟩⟩
  · exact wellNested_array _ _ fun a _ => nestRun_memmap_entry _ a
  · rw [(emits_memmap env).run_fresh]; rfl
  · rfl
  · exact List.getLast?_concat _
  · exact wellNested_array _ _ fun s hs => nestRun_statman_entry _ s (hty s hs)
  · rw [(emits_statman_text env).run_fresh]; rfl
  · rfl
  · exact List.getLast?_concat _
  · exact wellNested_array _ _ fun a _ => nestRun_stack_sampler_entry _ _ a
  · rw [(emits_stack_sampler d env).run_fresh]; rfl
  · rfl
  · exact List.getLast?_concat _
  · rfl
  · rw [(emits_status env).run_fresh]; rfl
  · rfl
  · rfl

/-- Witness for C9: `Env.busy` and the freshly constructed dashboard. -/
theorem serializers_well_nested_witness :
    (∀ s ∈ Env.busy.statman.live, s.type.known = true) ∧
    (wellNested (Dashboard.serialize_memmap Env.busy) = true ∧
      (Writer.fresh.run (Dashboard.serialize_memmap Env.busy)).IsComplete = true ∧
      (Dashboard.serialize_memmap Env.busy).head? = some Call.StartArray ∧
      (Dashboard.serialize_memmap Env.busy).getLast? = some Call.EndArray) ∧
    (wellNested (Dashboard.serialize_statman Env.busy) = true ∧
      (Writer.fresh.run (Dashboard.serialize_statman Env.busy)).IsComplete = true ∧
      (Dashboard.serialize_statman Env.busy).head? = some Call.StartArray ∧
      (Dashboard.serialize_statman Env.busy).getLast? = some Call.EndArray) ∧
    (wellNested (Dashboard.new.serialize_stack_sampler Env.busy) = true ∧
      (Writer.fresh.run (Dashboard.new.serialize_stack_sampler Env.busy)).IsComplete = true ∧
      (Dashboard.new.serialize_stack_sampler Env.busy).head? = some Call.StartArray ∧
      (Dashboard.new.serialize_stack_sampler Env.busy).getLast? = some Call.EndArray) ∧
    (wellNested (Dashboard.serialize_status Env.busy) = true ∧
      (Writer.fresh.run (Dashboard.serialize_status Env.busy)).IsComplete = true ∧
      (Dashboard.serialize_status Env.busy).head? = some Call.StartObject ∧
      (Dashboard.serialize_status Env.busy).getLast? = some Call.EndObject) :=
  ⟨by decide, serializers_well_nested Env.busy Dashboard.new (by decide)⟩

/-- C10: in every dashboard state reached from construction, the configured
limit is 12 and `serialize_stack_sampler` emits a JSON array with exactly
one object per sample of `results(12)`, in order; for a sampler whose
`results(n)` returns at most `n` samples the array has at most 12
elements. -/
theorem stack_sampler_top_n (reqs : List (Env × Request)) (env : Env)
    (hres : ∀ n : Nat, (env.results n).length ≤ n) :
    (Dashboard.new.serveMany reqs).stack_samples = 12 ∧
    ∃ elems : List JVal,
      fragment ((Dashboard.new.serveMany reqs).serialize_stack_sampler env) =
        (JVal.arr elems).toks ∧
      elems = (env.results 12).map (sampleObj env.samples_total) ∧
      elems.length = (env.results 12).length ∧
      elems.length ≤ 12 ∧
      ∀ e ∈ elems, e.isObj = true := by
  obtain ⟨_, hn⟩ := Dashboard.serveMany_new reqs
  refine ⟨hn, (env.results 12).map (sampleObj env.samples_total), ?_, rfl, by simp, ?_, ?_⟩
  · rw [(emits_stack_sampler _ env).fragment_eq, hn]
  · simpa using hres 12
  · intro e he
    obtain ⟨sa, _, rfl⟩ := List.mem_map.mp he
    rfl

/-- Witness for C10: `Env.busy`, whose sampler holds twenty sampled
addresses and returns the first `n` of them, after two earlier requests. -/
theorem stack_sampler_top_n_witness :
    (∀ n : Nat, (Env.busy.results n).length ≤ n) ∧
    (Dashboard.new.serveMany [(Env.busy, Request.all), (Env.quiet, Request.memmap)]).stack_samples
      = 12 ∧
    ∃ elems : List JVal,
      fragment ((Dashboard.new.serveMany
          [(Env.busy, Request.all), (Env.quiet, Request.memmap)]).serialize_stack_sampler
            Env.busy) = (JVal.arr elems).toks ∧
      elems = (Env.busy.results 12).map (sampleObj Env.busy.samples_total) ∧
      elems.length = (Env.busy.results 12).length ∧
      elems.length ≤ 12 ∧
      ∀ e ∈ elems, e.isObj = true :=
  ⟨fun n => by simp [Env.busy, List.length_take],
    stack_sampler_top_n [(Env.busy, Request.all), (Env.quiet, Request.memmap)] Env.busy
      (fun n => by simp [Env.busy, List.length_take])⟩

/-- C11, as stated, fails: with a total of three, the `percent` emitted for
a sample with one hit is the single precision number `4369067 / 131072`,
which is not `1 / 3 * 100`, and the `percent` emitted for a sample with five
hits is `5461333 / 32768`, which is above 100. -/
theorem stack_sampler_percent_counterexample :
    fragment (Dashboard.new.serialize_stack_sampler Env.overcount) =
      [Tok.lbrack,
        Tok.lbrace, Tok.str "address", Tok.colon, Tok.int 4096, Tok.comma,
          Tok.str "name", Tok.colon, Tok.str "main", Tok.comma,
          Tok.str "total", Tok.colon, Tok.int 1, Tok.comma,
          Tok.str "percent", Tok.colon, Tok.dbl (Fp.finite (4369067 / 131072)), Tok.rbrace,
        Tok.comma,
        Tok.lbrace, Tok.str "address", Tok.colon, Tok.int 8192, Tok.comma,
          Tok.str "name", Tok.colon, Tok.str "idle", Tok.comma,
          Tok.str "total", Tok.colon, Tok.int 5, Tok.comma,
          Tok.str "percent", Tok.colon, Tok.dbl (Fp.finite (5461333 / 32768)), Tok.rbrace,
        Tok.rbrack] ∧
    (4369067 / 131072 : ℚ) ≠ 1 / 3 * 100 ∧ ¬ ((5461333 / 32768 : ℚ) ≤ 100) := by
  refine ⟨?_, by norm_num, by norm_num⟩
  rw [(emits_stack_sampler _ _).fragment_eq]
  have h0 : Env.overcount.samples_total = 3 := rfl
  rw [h0]
  simp [Env.overcount, Env.quiet, Dashboard.new, sampleObj, Dashboard.perc_overcount,
    JVal.toks, JVal.elemsToks, JVal.membersToks, toUnsigned]

/-- C11, amended: for every list of samples returned by the sampler and
every total that is positive, within the range of `int` and not below the
hit count of any returned sample, `serialize_stack_sampler` emits one object
per sample, and the `percent` of each is the single precision evaluation of
`samp / total * 100` (the conversion of both operands, the division and the
multiplication each rounded to nearest), a finite number in the closed
interval from 0 to 100. -/
theorem stack_sampler_percent (d : Dashboard) (env : Env)
    (h0 : 0 < env.samples_total) (hint : env.samples_total < 2 ^ 31)
    (hle : ∀ sa ∈ env.results d.stack_samples, (sa.samp : Int) ≤ env.samples_total) :
    ∃ elems : List JVal,
      fragment (d.serialize_stack_sampler env) = (JVal.arr elems).toks ∧
      elems.length = (env.results d.stack_samples).length ∧
      ∀ (k : Nat) (sa : Sample), (env.results d.stack_samples)[k]? = some sa →
        ∃ r : ℚ,
          elems[k]? = some (JVal.obj [("address", JVal.int (toUnsigned sa.addr)),
            ("name", JVal.str sa.name), ("total", JVal.int sa.samp),
            ("percent", JVal.dbl (Fp.finite r))]) ∧
          Fp.mul32 (Fp.div32 (Fp.ofInt sa.samp) (Fp.ofInt env.samples_total)) (Fp.finite 100) =
            Fp.finite r ∧
          0 ≤ r ∧ r ≤ 100 := by
  refine ⟨(env.results d.stack_samples).map (sampleObj env.samples_total),
    (emits_stack_sampler d env).fragment_eq, by simp, ?_⟩
  intro k sa hk
  obtain ⟨r, hr, hr0, hr1⟩ := Dashboard.perc_bounds sa env.samples_total h0
    (hle sa (List.mem_iff_getElem?.mpr ⟨k, hk⟩)) hint
  refine ⟨r, ?_, hr, hr0, hr1⟩
  rw [List.getElem?_map, hk]
  simp only [Option.map_some', sampleObj, hr]

/-- Witness for C11: `Env.busy`, whose twelve returned samples have between
9 and 20 hits for a total of 210. -/
theorem stack_sampler_percent_witness :
    0 < Env.busy.samples_total ∧ Env.busy.samples_total < 2 ^ 31 ∧
    (∀ sa ∈ Env.busy.results Dashboard.new.stack_samples,
      (sa.samp : Int) ≤ Env.busy.samples_total) ∧
    ∃ elems : List JVal,
      fragment (Dashboard.new.serialize_stack_sampler Env.busy) = (JVal.arr elems).toks ∧
      elems.length = (Env.busy.results Dashboard.new.stack_samples).length ∧
      ∀ (k : Nat) (sa : Sample),
        (Env.busy.results Dashboard.new.stack_samples)[k]? = some sa →
        ∃ r : ℚ,
          elems[k]? = some (JVal.obj [("address", JVal.int (toUnsigned sa.addr)),
            ("name", JVal.str sa.name), ("total", JVal.int sa.samp),
            ("percent", JVal.dbl (Fp.finite r))]) ∧
          Fp.mul32 (Fp.div32 (Fp.ofInt sa.samp) (Fp.ofInt Env.busy.samples_total))
            (Fp.finite 100) = Fp.finite r ∧
          0 ≤ r ∧ r ≤ 100 :=
  ⟨by decide, by decide, by decide,
    stack_sampler_percent Dashboard.new Env.busy (by decide) (by decide) (by decide)⟩

/-- C12: for every state of the statistics registry, `serialize_statman`
emits `[`, the comma separated texts of the live counters in registry
order, `]`; and the text of every counter of type `UINT64`, `UINT32` or
`FLOAT` is the object with exactly the keys `name, value, type, index` in
that order, holding the counter's name, its value read through the accessor
of its own type (`get_uint64`, `get_uint32`, `get_float`), the label
`"UINT64"`, `"UINT32"` or `"FLOAT"` of that type, and its index. -/
theorem statman_objects (env : Env) :
    fragment (Dashboard.serialize_statman env) = arrToks (env.statman.live.map statText) ∧
    (∀ s : Stat, s.type = stat_type.UINT64 → statText s =
      (JVal.obj [("name", JVal.str s.name), ("value", JVal.int (s.get_uint64 : Nat)),
        ("type", JVal.str "UINT64"), ("index", JVal.int s.index)]).toks) ∧
    (∀ s : Stat, s.type = stat_type.UINT32 → statText s =
      (JVal.obj [("name", JVal.str s.name), ("value", JVal.int (s.get_uint32 : Nat)),
        ("type", JVal.str "UINT32"), ("index", JVal.int s.index)]).toks) ∧
    (∀ s : Stat, s.type = stat_type.FLOAT → statText s =
      (JVal.obj [("name", JVal.str s.name), ("value", JVal.dbl s.get_float),
        ("type", JVal.str "FLOAT"), ("index", JVal.int s.index)]).toks) ∧
    ((∀ s ∈ env.statman.live, s.type.known = true) →
      fragment (Dashboard.serialize_statman env) =
        (JVal.arr (env.statman.live.map statObj)).toks) := by
  refine ⟨(emits_statman_text env).fragment_eq, ?_, ?_, ?_, ?_⟩
  · intro s h
    simp [statText, statObj, Stat.valueJ, stat_type.label, stat_type.known, h]
  · intro s h
    simp [statText, statObj, Stat.valueJ, stat_type.label, stat_type.known, h]
  · intro s h
    simp [statText, statObj, Stat.valueJ, stat_type.label, stat_type.known, h]
  · intro hty
    exact (emits_statman env hty).fragment_eq

/-- C13, the code at an address of 4 GiB or more: `serialize_stack_sampler`
emits one JSON array with one object per returned sample, in the order
returned, with the keys `address, name, total, percent` in that order, the
sample's name, its own hit count and the single precision value of
`samp / total * 100` for the global total; the address is cast to
`uintptr_t` and passes through the 32-bit `Writer::Uint`, so it is emitted
reduced modulo `2 ^ 32`.  Whenever the k-th sample has an address at or
above `2 ^ 32`, the k-th emitted object is not the object holding the
sample's address; an address below `2 ^ 32` is emitted exactly. -/
theorem stack_sampler_address_narrowing (d : Dashboard) (env : Env) (k : Nat) (sa : Sample)
    (hk : (env.results d.stack_samples)[k]? = some sa) (h : 2 ^ 32 ≤ sa.addr) :
    ∃ elems : List JVal,
      fragment (d.serialize_stack_sampler env) = (JVal.arr elems).toks ∧
      elems.length = (env.results d.stack_samples).length ∧
      (∀ j : Nat, elems[j]? = ((env.results d.stack_samples)[j]?).map fun sa =>
        JVal.obj [("address", JVal.int ((sa.addr % 2 ^ 32 : Nat) : Int)),
          ("name", JVal.str sa.name), ("total", JVal.int (sa.samp : Nat)),
          ("percent", JVal.dbl (Fp.mul32 (Fp.div32 (Fp.ofInt sa.samp)
            (Fp.ofInt env.samples_total)) (Fp.finite 100)))]) ∧
      elems[k]? ≠ some (JVal.obj [("address", JVal.int (sa.addr : Int)),
          ("name", JVal.str sa.name), ("total", JVal.int (sa.samp : Nat)),
          ("percent", JVal.dbl (Fp.mul32 (Fp.div32 (Fp.ofInt sa.samp)
            (Fp.ofInt env.samples_total)) (Fp.finite 100)))]) ∧
      (∀ sa : Sample, sa.addr < 2 ^ 32 → ((sa.addr % 2 ^ 32 : Nat) : Int) = sa.addr) := by
  refine ⟨(env.results d.stack_samples).map (sampleObj env.samples_total),
    (emits_stack_sampler d env).fragment_eq, by simp, ?_, ?_, ?_⟩
  · intro j
    rw [List.getElem?_map]
    rfl
  · rw [List.getElem?_map, hk]
    simp only [Option.map_some', sampleObj, toUnsigned, ne_eq, Option.some.injEq,
      JVal.obj.injEq, List.cons.injEq, Prod.mk.injEq, JVal.int.injEq, Nat.cast_inj, true_and,
      and_true]
    intro heq
    have p : (2 : Nat) ^ 32 = 4294967296 := by norm_num
    rw [p] at h heq
    omega
  · intro sa h
    rw [Nat.mod_eq_of_lt h]

/-- Witness for C13: `Env.highAddress`, whose only sample was taken at
4 GiB + 4096; its address 4294971392 is emitted as 4096. -/
theorem stack_sampler_address_narrowing_witness :
    (Env.highAddress.results Dashboard.new.stack_samples)[0]? =
      some { samp := 1, addr := 4294971392, name := "far" } ∧
    2 ^ 32 ≤ 4294971392 ∧
    ∃ elems : List JVal,
      fragment (Dashboard.new.serialize_stack_sampler Env.highAddress) = (JVal.arr elems).toks ∧
      elems.length = (Env.highAddress.results Dashboard.new.stack_samples).length ∧
      (∀ j : Nat, elems[j]? =
        ((Env.highAddress.results Dashboard.new.stack_samples)[j]?).map fun sa =>
        JVal.obj [("address", JVal.int ((sa.addr % 2 ^ 32 : Nat) : Int)),
          ("name", JVal.str sa.name), ("total", JVal.int (sa.samp : Nat)),
          ("percent", JVal.dbl (Fp.mul32 (Fp.div32 (Fp.ofInt sa.samp)
            (Fp.ofInt Env.highAddress.samples_total)) (Fp.finite 100)))]) ∧
      elems[0]? ≠ some (JVal.obj [("address", JVal.int 4294971392),
          ("name", JVal.str "far"), ("total", JVal.int 1),
          ("percent", JVal.dbl (Fp.mul32 (Fp.div32 (Fp.ofInt 1)
            (Fp.ofInt Env.highAddress.samples_total)) (Fp.finite 100)))]) ∧
      (∀ sa : Sample, sa.addr < 2 ^ 32 → ((sa.addr % 2 ^ 32 : Nat) : Int) = sa.addr) :=
  ⟨rfl, by decide,
    stack_sampler_address_narrowing Dashboard.new Env.highAddress 0
      { samp := 1, addr := 4294971392, name := "far" } rfl (by decide)⟩

/-- C14: the registry with the single region `heap` (`addr_start` 0x1000,
`addr_end` 0x2000, `in_use` 256, description `main heap`) is serialized to
exactly the text
`[{"name":"heap","addr_start":4096,"addr_end":8192,"in_use":256,"description":"main heap"}]`,
and for every registry the text of `serialize_memmap` is `[`, the compact
objects of its regions separated by commas, `]`, whatever the rendering of
floating point numbers. -/
theorem memmap_text (dtoa : Fp → List Char) :
    String.mk (renderToks dtoa (fragment (Dashboard.serialize_memmap Env.heapOnly))) =
      "[\x7b\"name\":\"heap\",\"addr_start\":4096,\"addr_end\":8192,\"in_use\":256,\"description\":\"main heap\"\x7d]" ∧
    ∀ env : Env, renderToks dtoa (fragment (Dashboard.serialize_memmap env)) =
      ['['] ++ commaSep (env.memory_map.map fun i => regionText i.2) ++ [']'] := by
  refine ⟨rfl, fun env => ?_⟩
  rw [(emits_memmap env).fragment_eq, arr_toks_eq_arrToks, renderToks_arrToks, List.map_map,
    List.map_map]
  congr 3
  apply List.map_congr_left
  intro i _
  exact renderToks_regionObj dtoa i.2

/-- C15: the registry whose live range holds the single counter `requests`
(type `UINT64`, value 42, index 0) is serialized to exactly the text
`[{"name":"requests","value":42,"type":"UINT64","index":0}]`, and every
registry with an empty live range to `[]`, whatever the rendering of
floating point numbers. -/
theorem statman_text (dtoa : Fp → List Char) :
    String.mk (renderToks dtoa (fragment (Dashboard.serialize_statman Env.requestsOnly))) =
      "[\x7b\"name\":\"requests\",\"value\":42,\"type\":\"UINT64\",\"index\":0\x7d]" ∧
    ∀ env : Env, env.statman.last_used = 0 →
      String.mk (renderToks dtoa (fragment (Dashboard.serialize_statman env))) = "[]" := by
  refine ⟨rfl, fun env h0 => ?_⟩
  have hlive : env.statman.live = [] := by simp [Statman.live, h0]
  rw [(emits_statman_text env).fragment_eq, hlive]
  rfl

/-- C16: for every wall-clock value `t` with `0 ≤ t < 253402300800`, the
`current_time` string emitted by `serialize_status` is
`YYYY-MM-DDThh:mm:ssZ`: four digits, `-`, two digits, `-`, two digits, `T`,
two digits, `:`, two digits, `:`, two digits, `Z`, twenty characters in
all, where year (1970 to 9999), month, day, hour, minute and second are a
date of the civil calendar and a time of day lying exactly `t` seconds after
1970-01-01T00:00:00Z; `t = 0` gives `1970-01-01T00:00:00Z`. -/
theorem current_time_format (env : Env) (h0 : 0 ≤ env.rtc_now)
    (h1 : env.rtc_now < 253402300800) :
    ∃ Y M D hh mm ss : Nat,
      (1970 ≤ Y ∧ Y ≤ 9999 ∧ 1 ≤ M ∧ M ≤ 12 ∧ 1 ≤ D ∧ (D : Int) ≤ daysInMonth Y M ∧
        hh < 24 ∧ mm < 60 ∧ ss < 60) ∧
      civilSeconds Y M D hh mm ss = env.rtc_now ∧
      fragment (Dashboard.serialize_status env) =
        (JVal.obj [("version", JVal.str env.version), ("service", JVal.str env.service_name),
          ("uptime", JVal.int env.uptime), ("heap_usage", JVal.int (env.heap_usage : Nat)),
          ("cpu_freq", JVal.dbl env.cpu_freq),
          ("current_time", JVal.str (String.mk
            (padDigits 4 Y ++ ['-'] ++ padDigits 2 M ++ ['-'] ++ padDigits 2 D ++ ['T'] ++
              padDigits 2 hh ++ [':'] ++ padDigits 2 mm ++ [':'] ++ padDigits 2 ss ++
              ['Z'])))]).toks ∧
      (String.mk (padDigits 4 Y ++ ['-'] ++ padDigits 2 M ++ ['-'] ++ padDigits 2 D ++ ['T'] ++
          padDigits 2 hh ++ [':'] ++ padDigits 2 mm ++ [':'] ++ padDigits 2 ss ++
          ['Z'])).length = 20 ∧
      (∀ (w n : Nat), ∀ c ∈ padDigits w n, c.isDigit = true) ∧
      strftime_FTZ (gmtime 0) = "1970-01-01T00:00:00Z" := by
  obtain ⟨Y, M, D, hh, mm, ss, hr, hc, hs⟩ := gmtime_format env.rtc_now h0 h1
  refine ⟨Y, M, D, hh, mm, ss, hr, hc, ?_, strftime_length _ _ _ _ _ _, padDigits_isDigit,
    strftime_epoch⟩
  rw [← hs]
  exact (emits_status env).fragment_eq

/-- Witness for C16: `Env.busy`, whose clock reads 1700000000. -/
theorem current_time_format_witness :
    (0 ≤ Env.busy.rtc_now ∧ Env.busy.rtc_now < 253402300800) ∧
    ∃ Y M D hh mm ss : Nat,
      (1970 ≤ Y ∧ Y ≤ 9999 ∧ 1 ≤ M ∧ M ≤ 12 ∧ 1 ≤ D ∧ (D : Int) ≤ daysInMonth Y M ∧
        hh < 24 ∧ mm < 60 ∧ ss < 60) ∧
      civilSeconds Y M D hh mm ss = Env.busy.rtc_now ∧
      fragment (Dashboard.serialize_status Env.busy) =
        (JVal.obj [("version", JVal.str Env.busy.version),
          ("service", JVal.str Env.busy.service_name),
          ("uptime", JVal.int Env.busy.uptime),
          ("heap_usage", JVal.int (Env.busy.heap_usage : Nat)),
          ("cpu_freq", JVal.dbl Env.busy.cpu_freq),
          ("current_time", JVal.str (String.mk
            (padDigits 4 Y ++ ['-'] ++ padDigits 2 M ++ ['-'] ++ padDigits 2 D ++ ['T'] ++
              padDigits 2 hh ++ [':'] ++ padDigits 2 mm ++ [':'] ++ padDigits 2 ss ++
              ['Z'])))]).toks ∧
      (String.mk (padDigits 4 Y ++ ['-'] ++ padDigits 2 M ++ ['-'] ++ padDigits 2 D ++ ['T'] ++
          padDigits 2 hh ++ [':'] ++ padDigits 2 mm ++ [':'] ++ padDigits 2 ss ++
          ['Z'])).length = 20 ∧
      (∀ (w n : Nat), ∀ c ∈ padDigits w n, c.isDigit = true) ∧
      strftime_FTZ (gmtime 0) = "1970-01-01T00:00:00Z" :=
  ⟨⟨by decide, by decide⟩, current_time_format Env.busy (by decide) (by decide)⟩

/-- C17: the buffer is given the capacity 4096 at construction; for every
state of the data sources and every request, when the text of the document
is longer than 4096 bytes the request ends in the fatal overflow condition
and nothing is sent, and when it fits the request is served as without the
bound: the whole document is sent once and the dashboard, whose capacity is
a constant, is left idle. -/
theorem bounded_buffer (dtoa : Fp → List Char) (env : Env) (d : Dashboard) (res : Response)
    (r : Request) :
    Dashboard.capacity = 4096 ∧
    (4096 < byteLength (renderToks dtoa (d.body env r)) →
      d.serveBounded dtoa env res r = none) ∧
    (byteLength (renderToks dtoa (d.body env r)) ≤ 4096 →
      d.serveBounded dtoa env res r = some (d.serve env res r) ∧
      (d.serve env res r).2 = res ++ [d.body env r]) := by
  refine ⟨rfl, ?_, ?_⟩
  · intro h
    rw [Dashboard.serveBounded_eq]
    have : ¬ byteLength (renderToks dtoa (d.body env r)) ≤ Dashboard.capacity := by
      simp only [Dashboard.capacity]; omega
    simp [this]
  · intro h
    rw [Dashboard.serveBounded_eq]
    have : byteLength (renderToks dtoa (d.body env r)) ≤ Dashboard.capacity := h
    refine ⟨by simp [this], ?_⟩
    simp [Dashboard.body_eq_entry_calls, Dashboard.serve_eq_entry_calls, Dashboard.send_buffer,
      Dashboard.buffer_]

/-- C18: the freshly constructed dashboard is idle (empty buffer, nothing
open, no root started), and so is the dashboard after every request,
whatever its state before; every request hands exactly one body to the
transport, the content of the buffer as the serializers left it, taken
before the reset, and after any sequence of requests from construction the
dashboard is idle. -/
theorem idle_invariant (env : Env) (d : Dashboard) (res : Response) (r : Request)
    (reqs : List (Env × Request)) :
    Dashboard.new.writer_ = Writer.fresh ∧
    (d.serve env res r).1.writer_ = Writer.fresh ∧
    (d.serve env res r).1.buffer_ = [] ∧
    (d.serve env res r).1.writer_.level_stack_ = [] ∧
    (d.serve env res r).1.writer_.hasRoot_ = false ∧
    (∃ w : Writer, d.serve env res r = Dashboard.send_buffer { d with writer_ := w } res ∧
      (d.serve env res r).2 = res ++ [w.os_]) ∧
    (d.serve env res r).2.length = res.length + 1 ∧
    (Dashboard.new.serveMany reqs).writer_ = Writer.fresh := by
  refine ⟨rfl, Dashboard.serve_writer env d res r, ?_, ?_, ?_, ?_, ?_,
    (Dashboard.serveMany_new reqs).1⟩
  · cases r <;> rfl
  · cases r <;> rfl
  · cases r <;> rfl
  · cases r
    · exact ⟨_, rfl, rfl⟩
    · exact ⟨_, rfl, rfl⟩
    · exact ⟨_, rfl, rfl⟩
    · exact ⟨_, rfl, rfl⟩
  · cases r <;> simp [Dashboard.serve, Dashboard.serve_all, Dashboard.serve_memmap,
      Dashboard.serve_statman, Dashboard.serve_stack_sampler, Dashboard.send_buffer]

/-- C19, as stated, fails: entered with a buffer that already holds the
string `stale`, `serve_memmap` sends a body that differs from the one sent
from an empty buffer; entered with an object open, so does `serve_statman`. -/
theorem entry_reset_counterexample :
    Dashboard.stale.body Env.quiet Request.memmap ≠ Dashboard.new.body Env.quiet Request.memmap ∧
    Dashboard.midObject.body Env.quiet Request.statman ≠
      Dashboard.new.body Env.quiet Request.statman := by
  decide

/-- C19, amended: no entry point resets the buffer before it invokes a
serializer; each resets buffer and writer after it has sent.  In every
state reached from construction by any sequence of requests the body sent
by each of the four entry points depends only on the state of the data
sources and equals the body a freshly constructed dashboard sends; entered
with bytes in the buffer and nothing open, the body is those bytes followed
by that body; and whatever the state at entry, the state after the call is
the idle one. -/
theorem reset_after_send (reqs : List (Env × Request)) (env : Env) (r : Request) :
    (Dashboard.new.serveMany reqs).body env r = Dashboard.new.body env r ∧
    (∀ (d : Dashboard) (pre : List Tok),
      d.writer_ = { os_ := pre, level_stack_ := [], hasRoot_ := false } →
      d.stack_samples = 12 →
      d.body env r = pre ++ Dashboard.new.body env r) ∧
    (∀ (d : Dashboard) (res : Response), (d.serve env res r).1.writer_ = Writer.fresh) := by
  obtain ⟨hw, hn⟩ := Dashboard.serveMany_new reqs
  refine ⟨Dashboard.body_congr env _ _ r hw hn, ?_, fun d res => Dashboard.serve_writer env d res r⟩
  intro d pre hd hs
  have h1 := Dashboard.body_root env d r pre hd
  have h2 := Dashboard.body_root env Dashboard.new r [] rfl
  rw [h1, h2]
  have hse : d.serialize_stack_sampler env = Dashboard.new.serialize_stack_sampler env := by
    simp [Dashboard.serialize_stack_sampler, hs, Dashboard.new]
  cases r <;> simp [hse]

/-- C20: every address-width field goes through `Writer::Uint`: the calls
issued for a region pass `addr_start`, `addr_end` and `in_use` reduced
modulo `2 ^ 32`, the calls issued for a sample pass the address reduced
modulo `2 ^ 32`, these are the numbers in the emitted text, and a value
reduced modulo `2 ^ 32` is the value itself exactly when it is below
`2 ^ 32`. -/
theorem address_fields_mod (env : Env) (d : Dashboard) :
    (∀ i : Nat × MemoryRegion, Dashboard.memmap_entry i =
      [Call.StartObject, Call.Key "name", Call.String i.2.name,
        Call.Key "addr_start", Call.Uint (i.2.addr_start % 2 ^ 32),
        Call.Key "addr_end", Call.Uint (i.2.addr_end % 2 ^ 32),
        Call.Key "in_use", Call.Uint (i.2.in_use % 2 ^ 32),
        Call.Key "description", Call.String i.2.description, Call.EndObject]) ∧
    (∀ (total : Int) (sa : Sample), Dashboard.stack_sampler_entry total sa =
      [Call.StartObject, Call.Key "address", Call.Uint (sa.addr % 2 ^ 32),
        Call.Key "name", Call.String sa.name, Call.Key "total", Call.Uint sa.samp,
        Call.Key "percent", Call.Double (Dashboard.perc sa total), Call.EndObject]) ∧
    fragment (Dashboard.serialize_memmap env) =
      (JVal.arr (env.memory_map.map fun i =>
        JVal.obj [("name", JVal.str i.2.name),
          ("addr_start", JVal.int ((i.2.addr_start % 2 ^ 32 : Nat) : Int)),
          ("addr_end", JVal.int ((i.2.addr_end % 2 ^ 32 : Nat) : Int)),
          ("in_use", JVal.int ((i.2.in_use % 2 ^ 32 : Nat) : Int)),
          ("description", JVal.str i.2.description)])).toks ∧
    fragment (d.serialize_stack_sampler env) =
      (JVal.arr ((env.results d.stack_samples).map fun sa =>
        JVal.obj [("address", JVal.int ((sa.addr % 2 ^ 32 : Nat) : Int)),
          ("name", JVal.str sa.name), ("total", JVal.int (sa.samp : Nat)),
          ("percent", JVal.dbl (Dashboard.perc sa env.samples_total))])).toks ∧
    (∀ n : Nat, n % 2 ^ 32 = n ↔ n < 2 ^ 32) := by
  refine ⟨fun _ => rfl, fun _ _ => rfl, (emits_memmap env).fragment_eq,
    (emits_stack_sampler d env).fragment_eq, ?_⟩
  intro n
  constructor
  · intro h
    rw [← h]
    exact Nat.mod_lt _ (by norm_num)
  · exact Nat.mod_eq_of_lt

end IncludeOS
